import Mathlib

/-!
# FieldTypesStore and the combined webpack configuration

A shallow embedding of `enterprise/stores/FieldTypesStore.js` (a Reflux store
that fetches field-type mappings and caches them) and of the hot-reload entry
rewriting of `webpack.combined.config.js`.

The store is embedded as a transition system on a `World`: the two mutable
fields of the store object, the log of network requests issued through
`fetch`, the promise hanging from each request, the `Promise.all` rounds and
the log of states handed to `this.trigger`.  The network is the environment:
it settles a pending request with a success (an array of records) or a
failure.  One event is one turn of the JavaScript event loop; the promise
reactions it enables run to completion inside that turn.
-/

namespace FieldTypesStore

/-- What a field of the store object can hold. `method` is the store's own
`all` function, which is what `this.all` denotes until line 66 assigns a list;
`undefined` is what `this.queryFields` denotes until line 57 assigns a map.
`list` is an `Immutable.List` of `FieldTypeMapping`, `map` an `Immutable.Map`
from query id to such lists, given by its entries. `object` is a JavaScript
object that `Immutable.fromJS` has returned unconverted: its own properties,
whose values are plain arrays, and the array that is its prototype. -/
inductive Value (M : Type) where
  | undefined
  | method
  | list (xs : List M)
  | map (kvs : List (String × List M))
  | object (props : List (String × List M)) (proto : List M)
  deriving DecidableEq, Repr

/-- A JavaScript object created by a `{}` literal: its own enumerable
properties, and its prototype once an assignment to `__proto__` has replaced
`Object.prototype` (`none` until then). -/
structure Obj (V : Type) where
  props : List (String × V)
  proto : Option V
  deriving DecidableEq, Repr

/-- The object built by `_state()`, lines 85-90. -/
structure StoreState (M : Type) where
  all : Value M
  queryFields : Value M
  deriving DecidableEq, Repr

/-- The HTTP verbs used with `fetch`. -/
inductive Verb where
  | GET
  | POST
  deriving DecidableEq, Repr

/-- The path given to `URLUtils.qualifyUrl`, line 13. -/
def fieldTypesUrl : String := "/plugins/org.graylog.plugins.enterprise/fields"

/-- One invocation of `fetch(verb, url, body)`. The body of a scoped request is
`{ streams: streams }`; an identifier that a filter lacks is `none`. -/
structure Request where
  verb : Verb
  url : String
  streams : Option (List (Option String))
  deriving DecidableEq, Repr

/-- State of a promise. -/
inductive PState (α : Type) where
  | pending
  | fulfilled (v : α)
  | rejected
  deriving DecidableEq, Repr

/-- What has been chained on the promise `fetch(...).then(_deserializeFieldTypes)`:
nothing (a bare `forStreams`), the reaction of `all()` (lines 65-68), or the
tagging reaction of line 45-48 that feeds the `Promise.all` of round `round`. -/
inductive Reaction where
  | none
  | storeAll
  | tag (round : Nat) (queryId : String)
  deriving DecidableEq, Repr

/-- An issued request together with the promise derived from it. -/
structure Call (M : Type) where
  request : Request
  result : PState (List M)
  next : Reaction
  deriving DecidableEq, Repr

/-- The store object and its environment. `rounds[k]` lists the calls whose
promises were handed to the k-th `Promise.all`, in array order. -/
structure World (M : Type) where
  all : Value M
  queryFields : Value M
  calls : List (Call M)
  rounds : List (List Nat)
  notified : List (StoreState M)
  deriving DecidableEq, Repr

/-- How the network settles a request: a parsed JSON array or a failure. -/
inductive Outcome (R : Type) where
  | success (records : List R)
  | failure
  deriving DecidableEq, Repr

/-- A filter of a group: `f.get('type')` and `f.get('id')`, `none` when absent. -/
structure Filter where
  type : Option String
  id : Option String
  deriving DecidableEq, Repr

/-- A filter group: `filter.get('filters', ...)`, `none` when the key is absent. -/
structure Group where
  filters : Option (List Filter)
  deriving DecidableEq, Repr

/-- A value of the filter snapshot. -/
inductive Slot where
  | undefined
  | null
  | group (g : Group)
  deriving DecidableEq, Repr

/-- The snapshot delivered by `QueryFiltersStore`: a keyed collection from
query id to group, listed in iteration order. -/
abbrev Snapshot := List (String × Slot)

variable {R M : Type}

/-- The store object right after `Reflux.createStore` has copied the
definition onto it: `this.all` is the method, `this.queryFields` is unset. -/
def fresh : World M :=
  { all := Value.method, queryFields := Value.undefined, calls := [], rounds := [], notified := [] }

/-- Lines 85-90. -/
def _state (w : World M) : StoreState M :=
  { all := w.all, queryFields := w.queryFields }

/-- Lines 91-93: `this.trigger(this._state())`, synchronous. -/
def _trigger (w : World M) : World M :=
  { w with notified := w.notified ++ [_state w] }

/-- Lines 36-38. -/
def getInitialState (w : World M) : StoreState M := _state w

/-- Lines 80-83, with `FieldTypeMapping.fromJSON` as a parameter. -/
def _deserializeFieldTypes (fromJSON : R → M) (response : List R) : List M :=
  response.map (fun fieldTypeMapping => fromJSON fieldTypeMapping)

/-- Invoke `fetch` and chain `.then(_deserializeFieldTypes)` and `next` on it. -/
def issue (w : World M) (req : Request) (next : Reaction) : World M :=
  { w with calls := w.calls ++ [{ request := req, result := PState.pending, next := next }] }

/-- Lines 62-73. The returned promise is identified by the index of its call. -/
def all (w : World M) : World M × Nat :=
  (issue w { verb := Verb.GET, url := fieldTypesUrl, streams := none } Reaction.storeAll,
    w.calls.length)

/-- Lines 75-78, in continuation-passing form: `next` is what the caller
chains on the returned promise (`Reaction.none` for a bare call). -/
def forStreams (w : World M) (streams : List (Option String)) (next : Reaction) : World M × Nat :=
  (issue w { verb := Verb.POST, url := fieldTypesUrl, streams := some streams } next,
    w.calls.length)

/-- Line 43: the ids of the stream filters of one group. -/
def streamFilters (g : Group) : List (Option String) :=
  ((g.filters.getD []).filter (fun f => f.type == some "stream")).map (fun f => f.id)

/-- Lines 41-44: the first three stages of the chain; keys are kept. -/
def streamGroups (newFilters : Snapshot) : List (String × List (Option String)) :=
  ((newFilters.filterMap (fun kv =>
      match kv.2 with
      | Slot.undefined => none
      | Slot.null => none
      | Slot.group g => some (kv.1, g))).map
    (fun kv => (kv.1, streamFilters kv.2))).filter (fun kv => kv.2.length > 0)

/-- Definition of an own data property: the value of an existing key is
replaced, a new key is appended. -/
def defineOwn {V : Type} (props : List (String × V)) (key : String) (value : V) :
    List (String × V) :=
  match props with
  | [] => [(key, value)]
  | (k, v) :: rest => if k = key then (k, value) :: rest else (k, v) :: defineOwn rest key value

/-- Property assignment `obj[key] = value` on an object created by `{}`, for a
`value` that is an array (an object). The key `__proto__` reaches the setter
inherited from `Object.prototype`: `value` becomes the prototype of `obj` and
no own property is created. Any other key defines an own property. -/
def setProp {V : Type} (obj : Obj V) (key : String) (value : V) : Obj V :=
  if key = "__proto__" then { obj with proto := some value }
  else { obj with props := defineOwn obj.props key value }

/-- Read of an own property, `obj[key]` for a key among the own properties;
`none` when there is no such own property. -/
def getProp {V : Type} (obj : List (String × V)) (key : String) : Option V :=
  match obj with
  | [] => none
  | (k, v) :: rest => if k = key then some v else getProp rest key

/-- The fulfilment values of the tagged promises of a round, in array order:
`{ queryId, response }`. -/
def results (w : World M) (members : List Nat) : List (String × List M) :=
  members.filterMap (fun m =>
    match w.calls[m]? with
    | some c =>
      match c.next, c.result with
      | Reaction.tag _ queryId, PState.fulfilled response => some (queryId, response)
      | _, _ => none
    | none => none)

/-- Whether every promise handed to `Promise.all` is fulfilled. -/
def allFulfilled (w : World M) (members : List Nat) : Bool :=
  members.all (fun m =>
    match w.calls[m]? with
    | some c => match c.result with
      | PState.fulfilled _ => true
      | _ => false
    | none => false)

/-- Line 57: `Immutable.fromJS` on the object built at lines 53-56, whose
values are arrays of mappings. A plain object becomes a Map whose values are
Lists. An object whose prototype has been replaced by an array is not plain
and is returned as it is. -/
def fromJS (obj : Obj (List M)) : Value M :=
  match obj.proto with
  | none => Value.map obj.props
  | some proto => Value.object obj.props proto

/-- Lines 53-57: the value assigned to `this.queryFields` for the fulfilment
values `{ queryId, response }` of a round. -/
def combined (res : List (String × List M)) : Value M :=
  fromJS (res.foldl (fun combinedResult qr => setProp combinedResult qr.1 qr.2)
    { props := [], proto := none })

/-- Lines 52-59: the reaction chained on `Promise.all(promises)`. -/
def onRoundSettled (w : World M) (res : List (String × List M)) : World M :=
  _trigger { w with queryFields := combined res }

/-- Lines 45-50: one `forStreams` per remaining group, each tagged with its key. -/
def issueScoped (w : World M) (round : Nat) :
    List (String × List (Option String)) → World M × List Nat
  | [] => (w, [])
  | (queryId, filters) :: rest =>
    let p := forStreams w filters (Reaction.tag round queryId)
    let r := issueScoped p.1 round rest
    (r.1, p.2 :: r.2)

/-- Lines 40-60. With no promise at all `Promise.all([])` is already
fulfilled and its reaction runs at the end of the same turn. -/
def onQueryFiltersUpdate (w : World M) (newFilters : Snapshot) : World M :=
  let r := issueScoped w w.rounds.length (streamGroups newFilters)
  let w1 := { r.1 with rounds := r.1.rounds ++ [r.2] }
  if r.2.isEmpty then onRoundSettled w1 [] else w1

/-- The call created by line 45 for one remaining group. -/
def scopedCall (round : Nat) (t : String × List (Option String)) : Call M :=
  { request := { verb := Verb.POST, url := fieldTypesUrl, streams := some t.2 },
    result := PState.pending, next := Reaction.tag round t.1 }

/-- The network settles call `i`. A settled promise stays as it is. On
success the deserialised list fulfils the promise and the chained reaction
runs; on failure the promise rejects and no reaction of the store runs. -/
def settle (fromJSON : R → M) (w : World M) (i : Nat) (o : Outcome R) : World M :=
  match w.calls[i]? with
  | none => w
  | some c =>
    match c.result with
    | PState.pending =>
      match o with
      | Outcome.failure =>
        { w with calls := w.calls.set i { c with result := PState.rejected } }
      | Outcome.success records =>
        let response := _deserializeFieldTypes fromJSON records
        let w1 := { w with calls := w.calls.set i { c with result := PState.fulfilled response } }
        match c.next with
        | Reaction.none => w1
        | Reaction.storeAll => _trigger { w1 with all := Value.list response }
        | Reaction.tag round _ =>
          match w1.rounds[round]? with
          | none => w1
          | some members =>
            if allFulfilled w1 members then onRoundSettled w1 (results w1 members) else w1
    | _ => w

/-- The state in which the network leaves the promise of a call. -/
def settledResult (fromJSON : R → M) : Outcome R → PState (List M)
  | Outcome.success records => PState.fulfilled (_deserializeFieldTypes fromJSON records)
  | Outcome.failure => PState.rejected

/-- Lines 31-34: `init` calls `all()` and subscribes the filter handler, which
is also the default callback: it is invoked at once with the initial state of
`QueryFiltersStore` when that store provides one. -/
def init (w : World M) (initialFilters : Option Snapshot) : World M :=
  let w1 := (all w).1
  match initialFilters with
  | none => w1
  | some newFilters => onQueryFiltersUpdate w1 newFilters

/-- Whether a value is an `Immutable.List`. -/
def Value.isList : Value M → Bool
  | Value.list _ => true
  | _ => false

/-- Whether a value is an `Immutable.Map`. -/
def Value.isMap : Value M → Bool
  | Value.map _ => true
  | _ => false

/-- The type `FieldTypesStoreState` declared at lines 23-26. -/
def StoreState.wellTyped (s : StoreState M) : Bool :=
  s.all.isList && s.queryFields.isMap

/-- One turn of the event loop as seen by the store. -/
inductive Event (R : Type) where
  | all
  | filters (newFilters : Snapshot)
  | forStreams (streams : List (Option String))
  | settle (i : Nat) (o : Outcome R)
  deriving DecidableEq, Repr

/-- Effect of one event. -/
def step (fromJSON : R → M) (w : World M) : Event R → World M
  | Event.all => (all w).1
  | Event.filters newFilters => onQueryFiltersUpdate w newFilters
  | Event.forStreams streams => (forStreams w streams Reaction.none).1
  | Event.settle i o => settle fromJSON w i o

/-- Effect of a sequence of events. -/
def run (fromJSON : R → M) (w : World M) (es : List (Event R)) : World M :=
  es.foldl (step fromJSON) w

/-- Whether a value of the snapshot is a group with at least one filter of
type 'stream'. -/
def hasStreamFilter : Slot → Bool
  | Slot.group g =>
    match g.filters with
    | some fs => fs.any (fun f => decide (f.type = some "stream"))
    | none => false
  | Slot.undefined => false
  | Slot.null => false

/-- The identifier list of a group as the specification words it: the `id` of
every filter whose `type` equals 'stream', in the group's filter order. -/
def specStreamIds : List Filter → List (Option String)
  | [] => []
  | f :: rest => if f.type = some "stream" then f.id :: specStreamIds rest else specStreamIds rest

/-- The bodies of the scoped requests as the specification words them: null and
undefined groups are dropped, a missing `filters` entry counts as the empty
list, groups whose identifier list is empty are dropped. -/
def specScopedBodies : Snapshot → List (List (Option String))
  | [] => []
  | (_, Slot.undefined) :: rest => specScopedBodies rest
  | (_, Slot.null) :: rest => specScopedBodies rest
  | (_, Slot.group g) :: rest =>
    let ids := match g.filters with
      | none => []
      | some fs => specStreamIds fs
    if ids = [] then specScopedBodies rest else ids :: specScopedBodies rest

/-- The query id with which the promise of call `m` was tagged. -/
def tagOf (w : World M) (m : Nat) : String :=
  match w.calls[m]? with
  | some c =>
    match c.next with
    | Reaction.tag _ queryId => queryId
    | _ => ""
  | none => ""

/-- The value with which the promise of call `m` is fulfilled. -/
def valueOf (w : World M) (m : Nat) : List M :=
  match w.calls[m]? with
  | some c =>
    match c.result with
    | PState.fulfilled v => v
    | _ => []
  | none => []

/-- The world in which the promise of call `i` has been fulfilled with `v`. -/
def fulfil (w : World M) (i : Nat) (c : Call M) (v : List M) : World M :=
  { w with calls := w.calls.set i { c with result := PState.fulfilled v } }

/-- A snapshot with two groups that have stream filters, a null value and a
group without filters. -/
def demoSnapshot : Snapshot :=
  [("q1", Slot.group { filters := some [{ type := some "stream", id := some "s1" },
      { type := some "field", id := some "f" }] }),
   ("gone", Slot.null),
   ("q2", Slot.group { filters := some [{ type := some "stream", id := some "s2" },
      { type := some "stream", id := some "s3" }] }),
   ("bare", Slot.group { filters := none })]

/-- A snapshot with two groups that have stream filters, one of them under the
id `__proto__`. -/
def protoSnapshot : Snapshot :=
  [("__proto__", Slot.group { filters := some [{ type := some "stream", id := some "a" }] }),
   ("q", Slot.group { filters := some [{ type := some "stream", id := some "b" }] })]

/-- A more recent snapshot, with one group that has a stream filter. -/
def demoLater : Snapshot :=
  [("q9", Slot.group { filters := some [{ type := some "stream", id := some "s9" }] })]

/-- A store that already holds a list and a map with one key. -/
def demoWorld : World Nat :=
  { all := Value.list [1], queryFields := Value.map [("old", [2])], calls := [], rounds := [],
    notified := [] }

/-- The result set of a round whose first request is call `start`: the id of
each group that got a request, with the deserialised response of that
request. -/
def resultSet (fromJSON : R → M) (resp : Nat → List R) :
    Nat → List (String × List (Option String)) → List (String × List M)
  | _, [] => []
  | start, t :: rest => (t.1, (resp start).map fromJSON) :: resultSet fromJSON resp (start + 1) rest

/-- The world `w'` comes after `w`: rounds and calls are only added, the
request and the reaction of a call never change, and a settled promise keeps
its state. -/
def Later (w w' : World M) : Prop :=
  (∃ extra, w'.rounds = w.rounds ++ extra) ∧
  ∀ (i : Nat) (c : Call M), w.calls[i]? = some c →
    ∃ c' : Call M, w'.calls[i]? = some c' ∧ c'.request = c.request ∧ c'.next = c.next ∧
      (c.result ≠ PState.pending → c'.result = c.result)

end FieldTypesStore

namespace WebpackCombined

/-- A JavaScript value that is not an array: a module path, `undefined`, or
some other value (an entry descriptor, a function) kept abstract. -/
inductive Item where
  | str (s : String)
  | undefined
  | other (tag : Nat)
  deriving DecidableEq, Repr

/-- A value of `finalConfig.entry[entryKey]`, as told apart by `Array.isArray`. -/
inductive EntryValue where
  | single (v : Item)
  | array (vs : List Item)
  deriving DecidableEq, Repr

/-- The merged configuration: its `entry` object and everything else. -/
structure Config (Other : Type) where
  entry : FieldTypesStore.Obj EntryValue
  rest : Other
  deriving DecidableEq, Repr

/-- Line 48. -/
def webpackHotMiddlewareEntry : String := "webpack-hot-middleware/client?reload=true"

/-- Lines 52-58: the array built for one entry. -/
def hmrValue (entryValue : EntryValue) : List Item :=
  match entryValue with
  | EntryValue.array vs => [Item.str webpackHotMiddlewareEntry] ++ vs
  | EntryValue.single v => [Item.str webpackHotMiddlewareEntry] ++ [v]

/-- Lines 47-61: the loop over `Object.keys(finalConfig.entry)`, the own
enumerable keys, assigning into the object created by `{}` at line 47. -/
def hmrEntries (entry : FieldTypesStore.Obj EntryValue) : FieldTypesStore.Obj EntryValue :=
  (entry.props.map Prod.fst).foldl (fun hmrEntries entryKey =>
    let entryValue :=
      (FieldTypesStore.getProp entry.props entryKey).getD (EntryValue.single Item.undefined)
    FieldTypesStore.setProp hmrEntries entryKey (EntryValue.array (hmrValue entryValue)))
    { props := [], proto := none }

/-- Lines 46-66: what the module exports, given `process.env.npm_lifecycle_event`
and the result of the merges of line 43. -/
def moduleExports {Other : Type} (TARGET : Option String) (finalConfig : Config Other) :
    Config Other :=
  if TARGET = some "start" then { finalConfig with entry := hmrEntries finalConfig.entry }
  else finalConfig

end WebpackCombined

/-! ## Structure of the transition system -/

namespace FieldTypesStore

variable {R M : Type}

theorem issueScoped_eq (w : World M) (k : Nat) (ts : List (String × List (Option String))) :
    (issueScoped w k ts).1 = { w with calls := w.calls ++ ts.map (scopedCall k) } ∧
    (issueScoped w k ts).2 = List.range' w.calls.length ts.length := by
  induction ts generalizing w with
  | nil => simp [issueScoped]
  | cons t rest ih =>
    obtain ⟨q, f⟩ := t
    have h := ih (forStreams w f (Reaction.tag k q)).1
    simp only [issueScoped, h.1, h.2]
    simp [forStreams, issue, scopedCall, List.range'_succ]

theorem onQueryFiltersUpdate_calls (w : World M) (nf : Snapshot) :
    (onQueryFiltersUpdate w nf).calls =
      w.calls ++ (streamGroups nf).map (scopedCall w.rounds.length) := by
  have h := issueScoped_eq w w.rounds.length (streamGroups nf)
  unfold onQueryFiltersUpdate
  simp only [h.1, h.2]
  split <;> simp [onRoundSettled, _trigger]

theorem onQueryFiltersUpdate_rounds (w : World M) (nf : Snapshot) :
    (onQueryFiltersUpdate w nf).rounds =
      w.rounds ++ [List.range' w.calls.length (streamGroups nf).length] := by
  have h := issueScoped_eq w w.rounds.length (streamGroups nf)
  unfold onQueryFiltersUpdate
  simp only [h.1, h.2]
  split <;> simp [onRoundSettled, _trigger]

theorem onQueryFiltersUpdate_of_ne_nil (w : World M) (nf : Snapshot)
    (h : streamGroups nf ≠ []) :
    (onQueryFiltersUpdate w nf).all = w.all ∧
    (onQueryFiltersUpdate w nf).queryFields = w.queryFields ∧
    (onQueryFiltersUpdate w nf).notified = w.notified := by
  have h1 := issueScoped_eq w w.rounds.length (streamGroups nf)
  unfold onQueryFiltersUpdate
  simp only [h1.1, h1.2]
  have : (List.range' w.calls.length (streamGroups nf).length).isEmpty = false := by
    cases hs : streamGroups nf with
    | nil => exact absurd hs h
    | cons a l => simp [List.range'_succ]
  simp [this]

theorem onQueryFiltersUpdate_of_nil (w : World M) (nf : Snapshot)
    (h : streamGroups nf = []) :
    onQueryFiltersUpdate w nf =
      { w with rounds := w.rounds ++ [[]], queryFields := Value.map [],
               notified := w.notified ++ [{ all := w.all, queryFields := Value.map [] }] } := by
  have h1 := issueScoped_eq w w.rounds.length (streamGroups nf)
  unfold onQueryFiltersUpdate
  simp only [h1.1, h1.2]
  simp [h, onRoundSettled, _trigger, _state, combined, fromJS]

theorem settle_rounds (fromJSON : R → M) (w : World M) (i : Nat) (o : Outcome R) :
    (settle fromJSON w i o).rounds = w.rounds := by
  unfold settle
  cases h : w.calls[i]? with
  | none => rfl
  | some c =>
    obtain ⟨rq, rs, nx⟩ := c
    cases rs <;> cases o <;> cases nx <;> simp [_trigger, onRoundSettled]
    split <;> [rfl; (split <;> rfl)]

theorem settle_of_none (fromJSON : R → M) (w : World M) (i : Nat) (o : Outcome R)
    (h : w.calls[i]? = none) : settle fromJSON w i o = w := by
  unfold settle
  simp [h]

theorem settle_of_settled (fromJSON : R → M) (w : World M) (i : Nat) (o : Outcome R)
    (c : Call M) (h : w.calls[i]? = some c) (hc : c.result ≠ PState.pending) :
    settle fromJSON w i o = w := by
  unfold settle
  obtain ⟨rq, rs, nx⟩ := c
  cases rs <;> simp_all

theorem settle_calls (fromJSON : R → M) (w : World M) (i : Nat) (o : Outcome R)
    (c : Call M) (h : w.calls[i]? = some c) (hc : c.result = PState.pending) :
    (settle fromJSON w i o).calls =
      w.calls.set i { c with result := settledResult fromJSON o } := by
  unfold settle
  obtain ⟨rq, rs, nx⟩ := c
  simp only at hc
  subst hc
  cases o <;> cases nx <;> simp [h, settledResult, _trigger, onRoundSettled]
  split <;> [rfl; (split <;> rfl)]

theorem Later.refl (w : World M) : Later w w :=
  ⟨⟨[], by simp⟩, fun _ c h => ⟨c, h, rfl, rfl, fun _ => rfl⟩⟩

theorem Later.trans {w₁ w₂ w₃ : World M} (h₁ : Later w₁ w₂) (h₂ : Later w₂ w₃) :
    Later w₁ w₃ := by
  obtain ⟨⟨e₁, hr₁⟩, hc₁⟩ := h₁
  obtain ⟨⟨e₂, hr₂⟩, hc₂⟩ := h₂
  refine ⟨⟨e₁ ++ e₂, by rw [hr₂, hr₁, List.append_assoc]⟩, ?_⟩
  intro i c hi
  obtain ⟨c', hi', hq, hn, hp⟩ := hc₁ i c hi
  obtain ⟨c'', hi'', hq', hn', hp'⟩ := hc₂ i c' hi'
  refine ⟨c'', hi'', hq'.trans hq, hn'.trans hn, ?_⟩
  intro hne
  have e := hp hne
  rw [hp' (by rw [e]; exact hne), e]

theorem Later.of_append (w w' : World M) (cs : List (Call M)) (rs : List (List Nat))
    (hc : w'.calls = w.calls ++ cs) (hr : w'.rounds = w.rounds ++ rs) : Later w w' := by
  refine ⟨⟨rs, hr⟩, ?_⟩
  intro i c hi
  refine ⟨c, ?_, rfl, rfl, fun _ => rfl⟩
  obtain ⟨hlt, _⟩ := List.getElem?_eq_some.mp hi
  rw [hc, List.getElem?_append_left hlt]
  exact hi

theorem settle_later (fromJSON : R → M) (w : World M) (i : Nat) (o : Outcome R) :
    Later w (settle fromJSON w i o) := by
  cases h : w.calls[i]? with
  | none => rw [settle_of_none fromJSON w i o h]; exact Later.refl w
  | some c =>
    by_cases hc : c.result = PState.pending
    · refine ⟨⟨[], by simp [settle_rounds]⟩, ?_⟩
      intro j d hj
      rw [settle_calls fromJSON w i o c h hc]
      by_cases hij : i = j
      · subst hij
        have hd : d = c := by rw [h] at hj; exact (Option.some.inj hj).symm
        subst hd
        obtain ⟨hlt, _⟩ := List.getElem?_eq_some.mp h
        refine ⟨_, List.getElem?_set_self hlt, rfl, rfl, ?_⟩
        intro hne
        exact absurd hc hne
      · refine ⟨d, ?_, rfl, rfl, fun _ => rfl⟩
        rw [List.getElem?_set_ne hij]
        exact hj
    · rw [settle_of_settled fromJSON w i o c h hc]; exact Later.refl w

theorem step_later (fromJSON : R → M) (w : World M) (e : Event R) :
    Later w (step fromJSON w e) := by
  cases e with
  | all => exact Later.of_append _ _ _ [] (by simp [step, all, issue]; rfl) (by simp [step, all, issue])
  | filters nf =>
    exact Later.of_append _ _ _ _ (onQueryFiltersUpdate_calls w nf) (onQueryFiltersUpdate_rounds w nf)
  | forStreams streams =>
    exact Later.of_append _ _ _ [] (by simp [step, forStreams, issue]; rfl)
      (by simp [step, forStreams, issue])
  | settle i o => exact settle_later fromJSON w i o

theorem run_later (fromJSON : R → M) (w : World M) (es : List (Event R)) :
    Later w (run fromJSON w es) := by
  induction es generalizing w with
  | nil => exact Later.refl w
  | cons e es ih => exact (step_later fromJSON w e).trans (ih (step fromJSON w e))

theorem settle_failure (fromJSON : R → M) (w : World M) (i : Nat) (c : Call M)
    (h : w.calls[i]? = some c) (hc : c.result = PState.pending) :
    settle fromJSON w i Outcome.failure =
      { w with calls := w.calls.set i { c with result := PState.rejected } } := by
  unfold settle
  obtain ⟨rq, rs, nx⟩ := c
  simp only at hc
  subst hc
  simp [h]

theorem settle_storeAll (fromJSON : R → M) (w : World M) (i : Nat) (c : Call M)
    (records : List R) (h : w.calls[i]? = some c) (hc : c.result = PState.pending)
    (hn : c.next = Reaction.storeAll) :
    settle fromJSON w i (Outcome.success records) =
      { w with
        calls := w.calls.set i { c with result := PState.fulfilled (records.map fromJSON) },
        all := Value.list (records.map fromJSON),
        notified := w.notified ++
          [{ all := Value.list (records.map fromJSON), queryFields := w.queryFields }] } := by
  unfold settle
  obtain ⟨rq, rs, nx⟩ := c
  simp only at hc hn
  subst hc hn
  simp [h, _trigger, _state, _deserializeFieldTypes]

theorem settle_bare (fromJSON : R → M) (w : World M) (i : Nat) (c : Call M)
    (records : List R) (h : w.calls[i]? = some c) (hc : c.result = PState.pending)
    (hn : c.next = Reaction.none) :
    settle fromJSON w i (Outcome.success records) =
      { w with
        calls := w.calls.set i { c with result := PState.fulfilled (records.map fromJSON) } } := by
  unfold settle
  obtain ⟨rq, rs, nx⟩ := c
  simp only at hc hn
  subst hc hn
  simp [h, _deserializeFieldTypes]

theorem all_call (w : World M) :
    (all w).1.calls[(all w).2]? =
      some { request := { verb := Verb.GET, url := fieldTypesUrl, streams := none },
             result := PState.pending, next := Reaction.storeAll } := by
  simp [all, issue]

/-- C1: after `all()` and any further events that leave its request pending, a
successful response of N records makes `all` the list of the N deserialised
records in order, fulfils the promise, and adds exactly one notification,
whose `all` field is that list. -/
theorem all_success_replaces_and_notifies_once (fromJSON : R → M) (w : World M)
    (es : List (Event R)) (records : List R)
    (hp : ((run fromJSON (all w).1 es).calls[(all w).2]?).map Call.result =
      some PState.pending) :
    ∃ xs : List M,
      (settle fromJSON (run fromJSON (all w).1 es) (all w).2 (Outcome.success records)).all =
        Value.list xs ∧
      xs.length = records.length ∧
      (∀ (i : Nat) (h : i < records.length), xs[i]? = some (fromJSON records[i])) ∧
      ((settle fromJSON (run fromJSON (all w).1 es) (all w).2
        (Outcome.success records)).calls[(all w).2]?).map Call.result =
          some (PState.fulfilled xs) ∧
      ∃ s : StoreState M, s.all = Value.list xs ∧
        (settle fromJSON (run fromJSON (all w).1 es) (all w).2 (Outcome.success records)).notified =
          (run fromJSON (all w).1 es).notified ++ [s] := by
  obtain ⟨c, hc, _, hn, _⟩ := (run_later fromJSON (all w).1 es).2 _ _ (all_call w)
  rw [hc] at hp
  have hpend : c.result = PState.pending := by simpa using hp
  have hlt := (List.getElem?_eq_some.mp hc).1
  refine ⟨records.map fromJSON, ?_, by simp, ?_, ?_, ?_⟩
  · rw [settle_storeAll fromJSON _ _ c records hc hpend hn]
  · intro i h
    simp [List.getElem?_map, List.getElem?_eq_getElem h]
  · rw [settle_storeAll fromJSON _ _ c records hc hpend hn]
    simp [List.getElem?_set_self hlt]
  · refine ⟨{ all := Value.list (records.map fromJSON),
               queryFields := (run fromJSON (all w).1 es).queryFields }, rfl, ?_⟩
    rw [settle_storeAll fromJSON _ _ c records hc hpend hn]

theorem all_success_replaces_and_notifies_once_witness :
    ∃ xs : List Nat,
      (settle (fun n : Nat => n + 1)
        (run (fun n : Nat => n + 1) (all (fresh : World Nat)).1 [Event.filters []])
        (all (fresh : World Nat)).2 (Outcome.success [4, 7])).all = Value.list xs ∧
      xs.length = [4, 7].length ∧
      (∀ (i : Nat) (h : i < [4, 7].length), xs[i]? = some ((fun n : Nat => n + 1) [4, 7][i])) ∧
      ((settle (fun n : Nat => n + 1)
        (run (fun n : Nat => n + 1) (all (fresh : World Nat)).1 [Event.filters []])
        (all (fresh : World Nat)).2 (Outcome.success [4, 7])).calls[(all (fresh : World Nat)).2]?).map
          Call.result = some (PState.fulfilled xs) ∧
      ∃ s : StoreState Nat, s.all = Value.list xs ∧
        (settle (fun n : Nat => n + 1)
          (run (fun n : Nat => n + 1) (all (fresh : World Nat)).1 [Event.filters []])
          (all (fresh : World Nat)).2 (Outcome.success [4, 7])).notified =
          (run (fun n : Nat => n + 1) (all (fresh : World Nat)).1 [Event.filters []]).notified ++ [s] :=
  all_success_replaces_and_notifies_once (fun n : Nat => n + 1) fresh [Event.filters []] [4, 7]
    (by decide)

/-- C2: after `all()` and any further events that leave its request pending, a
failed request rejects the promise, leaves `all` and `queryFields` as they are
and emits no notification; issuing the call changes neither field and
notifies nobody. -/
theorem all_failure_leaves_state (fromJSON : R → M) (w : World M)
    (es : List (Event R))
    (hp : ((run fromJSON (all w).1 es).calls[(all w).2]?).map Call.result =
      some PState.pending) :
    ((settle fromJSON (run fromJSON (all w).1 es) (all w).2
        Outcome.failure).calls[(all w).2]?).map Call.result = some PState.rejected ∧
    (settle fromJSON (run fromJSON (all w).1 es) (all w).2 Outcome.failure).all =
      (run fromJSON (all w).1 es).all ∧
    (settle fromJSON (run fromJSON (all w).1 es) (all w).2 Outcome.failure).queryFields =
      (run fromJSON (all w).1 es).queryFields ∧
    (settle fromJSON (run fromJSON (all w).1 es) (all w).2 Outcome.failure).notified =
      (run fromJSON (all w).1 es).notified ∧
    (all w).1.all = w.all ∧ (all w).1.queryFields = w.queryFields ∧
    (all w).1.notified = w.notified := by
  obtain ⟨c, hc, _, _, _⟩ := (run_later fromJSON (all w).1 es).2 _ _ (all_call w)
  rw [hc] at hp
  have hpend : c.result = PState.pending := by simpa using hp
  have hlt := (List.getElem?_eq_some.mp hc).1
  rw [settle_failure fromJSON _ _ c hc hpend]
  refine ⟨?_, rfl, rfl, rfl, rfl, rfl, rfl⟩
  simp only [List.getElem?_set_self hlt, Option.map_some']

theorem all_failure_leaves_state_witness :
    ((settle (fun n : Nat => n + 1)
        (run (fun n : Nat => n + 1)
          (all ({ all := Value.list [1], queryFields := Value.map [("q", [2])], calls := [],
                  rounds := [], notified := [] } : World Nat)).1
          [Event.forStreams [some "s"]]) 0
        Outcome.failure).calls[0]?).map Call.result = some PState.rejected ∧
    (settle (fun n : Nat => n + 1)
        (run (fun n : Nat => n + 1)
          (all ({ all := Value.list [1], queryFields := Value.map [("q", [2])], calls := [],
                  rounds := [], notified := [] } : World Nat)).1
          [Event.forStreams [some "s"]]) 0 Outcome.failure).all = Value.list [1] ∧
    (settle (fun n : Nat => n + 1)
        (run (fun n : Nat => n + 1)
          (all ({ all := Value.list [1], queryFields := Value.map [("q", [2])], calls := [],
                  rounds := [], notified := [] } : World Nat)).1
          [Event.forStreams [some "s"]]) 0 Outcome.failure).queryFields =
      Value.map [("q", [2])] ∧
    (settle (fun n : Nat => n + 1)
        (run (fun n : Nat => n + 1)
          (all ({ all := Value.list [1], queryFields := Value.map [("q", [2])], calls := [],
                  rounds := [], notified := [] } : World Nat)).1
          [Event.forStreams [some "s"]]) 0 Outcome.failure).notified = [] :=
  have h := all_failure_leaves_state (fun n : Nat => n + 1)
    ({ all := Value.list [1], queryFields := Value.map [("q", [2])], calls := [],
       rounds := [], notified := [] } : World Nat) [Event.forStreams [some "s"]] (by decide)
  ⟨h.1, h.2.1, h.2.2.1, h.2.2.2.1⟩

theorem forStreams_call (w : World M) (streams : List (Option String)) (next : Reaction) :
    (forStreams w streams next).1.calls[(forStreams w streams next).2]? =
      some { request := { verb := Verb.POST, url := fieldTypesUrl, streams := some streams },
             result := PState.pending, next := next } := by
  simp [forStreams, issue]

/-- C7: a bare `forStreams(streams)` issues exactly one POST request with body
`{ streams }` and touches neither field nor the subscribers; when that
request is settled, the promise is fulfilled with the records deserialised in
order, or rejected, and again `all`, `queryFields` and the notification log
are unchanged. -/
theorem forStreams_is_side_effect_free (fromJSON : R → M) (w : World M)
    (streams : List (Option String)) (es : List (Event R)) (o : Outcome R)
    (hp : ((run fromJSON (forStreams w streams Reaction.none).1 es).calls[
        (forStreams w streams Reaction.none).2]?).map Call.result = some PState.pending) :
    (forStreams w streams Reaction.none).1.calls =
      w.calls ++ [{ request := { verb := Verb.POST, url := fieldTypesUrl, streams := some streams },
                    result := PState.pending, next := Reaction.none }] ∧
    (forStreams w streams Reaction.none).1.all = w.all ∧
    (forStreams w streams Reaction.none).1.queryFields = w.queryFields ∧
    (forStreams w streams Reaction.none).1.notified = w.notified ∧
    ((settle fromJSON (run fromJSON (forStreams w streams Reaction.none).1 es)
        (forStreams w streams Reaction.none).2 o).calls[
          (forStreams w streams Reaction.none).2]?).map Call.result =
      some (match o with
        | Outcome.success records => PState.fulfilled (records.map fromJSON)
        | Outcome.failure => PState.rejected) ∧
    (settle fromJSON (run fromJSON (forStreams w streams Reaction.none).1 es)
        (forStreams w streams Reaction.none).2 o).all =
      (run fromJSON (forStreams w streams Reaction.none).1 es).all ∧
    (settle fromJSON (run fromJSON (forStreams w streams Reaction.none).1 es)
        (forStreams w streams Reaction.none).2 o).queryFields =
      (run fromJSON (forStreams w streams Reaction.none).1 es).queryFields ∧
    (settle fromJSON (run fromJSON (forStreams w streams Reaction.none).1 es)
        (forStreams w streams Reaction.none).2 o).notified =
      (run fromJSON (forStreams w streams Reaction.none).1 es).notified := by
  obtain ⟨c, hc, _, hn, _⟩ :=
    (run_later fromJSON (forStreams w streams Reaction.none).1 es).2 _ _
      (forStreams_call w streams Reaction.none)
  rw [hc] at hp
  have hpend : c.result = PState.pending := by simpa using hp
  have hlt := (List.getElem?_eq_some.mp hc).1
  refine ⟨rfl, rfl, rfl, rfl, ?_⟩
  cases o with
  | failure =>
    rw [settle_failure fromJSON _ _ c hc hpend]
    refine ⟨?_, rfl, rfl, rfl⟩
    simp only [List.getElem?_set_self hlt, Option.map_some']
  | success records =>
    rw [settle_bare fromJSON _ _ c records hc hpend hn]
    refine ⟨?_, rfl, rfl, rfl⟩
    simp only [List.getElem?_set_self hlt, Option.map_some']

theorem forStreams_is_side_effect_free_witness :
    ((settle (fun n : Nat => 2 * n)
        (run (fun n : Nat => 2 * n) (forStreams (fresh : World Nat) [some "a", none]
          Reaction.none).1 [Event.all]) 0 (Outcome.success [3, 5])).calls[0]?).map Call.result =
      some (PState.fulfilled [6, 10]) ∧
    (settle (fun n : Nat => 2 * n)
        (run (fun n : Nat => 2 * n) (forStreams (fresh : World Nat) [some "a", none]
          Reaction.none).1 [Event.all]) 0 (Outcome.success [3, 5])).notified = [] :=
  have h := forStreams_is_side_effect_free (fun n : Nat => 2 * n) (fresh : World Nat)
    [some "a", none] [Event.all] (Outcome.success [3, 5]) (by decide)
  ⟨h.2.2.2.2.1, h.2.2.2.2.2.2.2⟩

theorem streamFilters_eq_nil_iff (g : Group) :
    streamFilters g = [] ↔ hasStreamFilter (Slot.group g) = false := by
  obtain ⟨fo⟩ := g
  cases fo with
  | none => simp [streamFilters, hasStreamFilter]
  | some fs => simp [streamFilters, hasStreamFilter]

theorem streamGroups_cons (kv : String × Slot) (rest : Snapshot) :
    streamGroups (kv :: rest) =
      match kv.2 with
      | Slot.group g =>
        if streamFilters g = [] then streamGroups rest
        else (kv.1, streamFilters g) :: streamGroups rest
      | _ => streamGroups rest := by
  obtain ⟨k, sl⟩ := kv
  cases sl with
  | undefined => simp [streamGroups]
  | null => simp [streamGroups]
  | group g =>
    by_cases h : streamFilters g = []
    · simp [streamGroups, h]
    · have : 0 < (streamFilters g).length := List.length_pos.mpr h
      simp [streamGroups, h, this]

theorem streamGroups_keys (nf : Snapshot) :
    (streamGroups nf).map Prod.fst =
      (nf.filter (fun kv => hasStreamFilter kv.2)).map Prod.fst := by
  induction nf with
  | nil => rfl
  | cons kv rest ih =>
    rw [streamGroups_cons]
    obtain ⟨k, sl⟩ := kv
    cases sl with
    | undefined => simpa [hasStreamFilter] using ih
    | null => simpa [hasStreamFilter] using ih
    | group g =>
      by_cases h : streamFilters g = []
      · have h' := (streamFilters_eq_nil_iff g).mp h
        simp [h, h', ih]
      · have h' : hasStreamFilter (Slot.group g) = true := by
          cases hh : hasStreamFilter (Slot.group g) with
          | true => rfl
          | false => exact absurd ((streamFilters_eq_nil_iff g).mpr hh) h
        simp [h, h', ih]

theorem streamGroups_eq_nil (nf : Snapshot)
    (h : ∀ kv ∈ nf, hasStreamFilter kv.2 = false) : streamGroups nf = [] := by
  have hk := streamGroups_keys nf
  rw [List.filter_eq_nil_iff.mpr (by intro kv hkv; simp [h kv hkv])] at hk
  simpa using hk

/-- C4: when no value of the snapshot is a group with a stream-type filter,
`onQueryFiltersUpdate` issues no request, sets `queryFields` to the empty map
whatever it held, and notifies the subscribers once with that state. -/
theorem filters_without_streams_reset (w : World M) (nf : Snapshot)
    (h : ∀ kv ∈ nf, hasStreamFilter kv.2 = false) :
    (onQueryFiltersUpdate w nf).calls = w.calls ∧
    (onQueryFiltersUpdate w nf).queryFields = Value.map [] ∧
    (onQueryFiltersUpdate w nf).notified =
      w.notified ++ [{ all := w.all, queryFields := Value.map [] }] := by
  rw [onQueryFiltersUpdate_of_nil w nf (streamGroups_eq_nil nf h)]
  exact ⟨rfl, rfl, rfl⟩

theorem filters_without_streams_reset_witness :
    (∀ kv ∈ ([("a", Slot.null), ("b", Slot.undefined), ("c", Slot.group { filters := none }),
        ("d", Slot.group { filters := some [{ type := some "field", id := some "x" },
          { type := none, id := some "y" }] })] : Snapshot), hasStreamFilter kv.2 = false) ∧
    (onQueryFiltersUpdate
        ({ all := Value.list [1], queryFields := Value.map [("old", [2])], calls := [],
           rounds := [], notified := [] } : World Nat)
        [("a", Slot.null), ("b", Slot.undefined), ("c", Slot.group { filters := none }),
         ("d", Slot.group { filters := some [{ type := some "field", id := some "x" },
           { type := none, id := some "y" }] })]).calls = [] ∧
    (onQueryFiltersUpdate
        ({ all := Value.list [1], queryFields := Value.map [("old", [2])], calls := [],
           rounds := [], notified := [] } : World Nat)
        [("a", Slot.null), ("b", Slot.undefined), ("c", Slot.group { filters := none }),
         ("d", Slot.group { filters := some [{ type := some "field", id := some "x" },
           { type := none, id := some "y" }] })]).queryFields = Value.map [] ∧
    (onQueryFiltersUpdate
        ({ all := Value.list [1], queryFields := Value.map [("old", [2])], calls := [],
           rounds := [], notified := [] } : World Nat)
        [("a", Slot.null), ("b", Slot.undefined), ("c", Slot.group { filters := none }),
         ("d", Slot.group { filters := some [{ type := some "field", id := some "x" },
           { type := none, id := some "y" }] })]).notified =
      [{ all := Value.list [1], queryFields := Value.map [] }] :=
  ⟨by decide,
   filters_without_streams_reset
    ({ all := Value.list [1], queryFields := Value.map [("old", [2])], calls := [],
       rounds := [], notified := [] } : World Nat)
    [("a", Slot.null), ("b", Slot.undefined), ("c", Slot.group { filters := none }),
     ("d", Slot.group { filters := some [{ type := some "field", id := some "x" },
       { type := none, id := some "y" }] })] (by decide)⟩

theorem specStreamIds_eq (fs : List Filter) :
    specStreamIds fs =
      (fs.filter (fun f => f.type == some "stream")).map (fun f => f.id) := by
  induction fs with
  | nil => rfl
  | cons f rest ih =>
    by_cases h : f.type = some "stream"
    · simp [specStreamIds, h, ih]
    · simp [specStreamIds, h, ih]

theorem streamGroups_bodies (nf : Snapshot) :
    (streamGroups nf).map Prod.snd = specScopedBodies nf := by
  induction nf with
  | nil => rfl
  | cons kv rest ih =>
    rw [streamGroups_cons]
    obtain ⟨k, sl⟩ := kv
    cases sl with
    | undefined => simpa [specScopedBodies] using ih
    | null => simpa [specScopedBodies] using ih
    | group g =>
      obtain ⟨fo⟩ := g
      have e : streamFilters { filters := fo } =
          (match fo with
            | none => []
            | some fs => specStreamIds fs) := by
        cases fo with
        | none => simp [streamFilters]
        | some fs => simp [streamFilters, specStreamIds_eq]
      simp only [specScopedBodies, ← e]
      by_cases h : streamFilters { filters := fo } = []
      · simp [h, ih]
      · simp [h, ih]

/-- C5: the requests issued by `onQueryFiltersUpdate` are exactly, and in
order, one POST per body computed as the specification words it: null and
undefined groups dropped, the ids of the filters of type 'stream' in filter
order (a missing `filters` entry being the empty list), empty lists dropped,
each sent as `{ streams: ids }`. -/
theorem scoped_requests_follow_spec (w : World M) (nf : Snapshot) :
    (onQueryFiltersUpdate w nf).calls.map Call.request =
      w.calls.map Call.request ++
        (specScopedBodies nf).map
          (fun ids => { verb := Verb.POST, url := fieldTypesUrl, streams := some ids }) := by
  rw [onQueryFiltersUpdate_calls, List.map_append, ← streamGroups_bodies, List.map_map,
    List.map_map]
  rfl

/-! ## Completion of a round -/

theorem defineOwn_of_not_mem {V : Type} (obj : List (String × V)) (key : String) (value : V)
    (h : key ∉ obj.map Prod.fst) : defineOwn obj key value = obj ++ [(key, value)] := by
  induction obj with
  | nil => rfl
  | cons kv rest ih =>
    obtain ⟨k, v⟩ := kv
    simp only [List.map_cons, List.mem_cons, not_or] at h
    have hk : ¬ k = key := fun e => h.1 e.symm
    simp [defineOwn, hk, ih h.2]

theorem foldl_defineOwn_of_nodup {V : Type} (l acc : List (String × V))
    (h : (acc.map Prod.fst ++ l.map Prod.fst).Nodup) :
    l.foldl (fun a qr => defineOwn a qr.1 qr.2) acc = acc ++ l := by
  induction l generalizing acc with
  | nil => simp
  | cons kv rest ih =>
    have hnot : kv.1 ∉ acc.map Prod.fst := by
      intro hmem
      have hd := (List.nodup_append.mp h).2.2
      exact hd hmem (by simp)
    rw [List.foldl_cons, defineOwn_of_not_mem acc kv.1 kv.2 hnot, ih]
    · simp
    · simpa using h

theorem foldl_setProp_of_ordinary {V : Type} (l : List (String × V)) (acc : Obj V)
    (h : ∀ kv ∈ l, kv.1 ≠ "__proto__") :
    l.foldl (fun a qr => setProp a qr.1 qr.2) acc =
      { acc with props := l.foldl (fun a qr => defineOwn a qr.1 qr.2) acc.props } := by
  induction l generalizing acc with
  | nil => rfl
  | cons kv rest ih =>
    have hk : kv.1 ≠ "__proto__" := h kv (by simp)
    rw [List.foldl_cons, List.foldl_cons, ih _ (fun kv' hkv' => h kv' (by simp [hkv']))]
    simp [setProp, hk]

theorem combined_eq_map (res : List (String × List M))
    (hn : (res.map Prod.fst).Nodup) (h : ∀ kv ∈ res, kv.1 ≠ "__proto__") :
    combined res = Value.map res := by
  unfold combined
  rw [foldl_setProp_of_ordinary res _ h, foldl_defineOwn_of_nodup]
  · rfl
  · simpa using hn

theorem getProp_of_mem {V : Type} (l : List (String × V)) (key : String) (value : V)
    (hn : (l.map Prod.fst).Nodup) (hm : (key, value) ∈ l) : getProp l key = some value := by
  induction l with
  | nil => simp at hm
  | cons kv rest ih =>
    obtain ⟨k, v⟩ := kv
    simp only [List.map_cons, List.nodup_cons] at hn
    rcases List.mem_cons.mp hm with e | hrest
    · cases e
      simp [getProp]
    · have hk : ¬ k = key := by
        intro e
        subst e
        exact hn.1 (List.mem_map.mpr ⟨(k, value), hrest, rfl⟩)
      simp [getProp, hk, ih hn.2 hrest]

theorem getProp_of_not_mem {V : Type} (l : List (String × V)) (key : String)
    (h : key ∉ l.map Prod.fst) : getProp l key = none := by
  induction l with
  | nil => rfl
  | cons kv rest ih =>
    obtain ⟨k, v⟩ := kv
    simp only [List.map_cons, List.mem_cons, not_or] at h
    have hk : ¬ k = key := fun e => h.1 e.symm
    simp [getProp, hk, ih h.2]

theorem results_eq_map (w : World M) (ms : List Nat)
    (h : ∀ m ∈ ms, ∃ c : Call M, w.calls[m]? = some c ∧
      (∃ k q, c.next = Reaction.tag k q) ∧ ∃ v, c.result = PState.fulfilled v) :
    results w ms = ms.map (fun m => (tagOf w m, valueOf w m)) := by
  induction ms with
  | nil => rfl
  | cons m rest ih =>
    obtain ⟨c, hc, ⟨k, q, hn⟩, v, hv⟩ := h m (by simp)
    have ih' := ih (fun m' hm' => h m' (by simp [hm']))
    unfold results at ih' ⊢
    rw [List.filterMap_cons, List.map_cons, ← ih']
    simp [hc, hn, hv, tagOf, valueOf]

theorem allFulfilled_of (w : World M) (ms : List Nat)
    (h : ∀ m ∈ ms, ∃ c : Call M, w.calls[m]? = some c ∧ ∃ v, c.result = PState.fulfilled v) :
    allFulfilled w ms = true := by
  unfold allFulfilled
  rw [List.all_eq_true]
  intro m hm
  obtain ⟨c, hc, v, hv⟩ := h m hm
  simp [hc, hv]

theorem allFulfilled_elim (w : World M) (ms : List Nat) (h : allFulfilled w ms = true)
    (m : Nat) (hm : m ∈ ms) :
    ∃ c : Call M, w.calls[m]? = some c ∧ ∃ v, c.result = PState.fulfilled v := by
  unfold allFulfilled at h
  rw [List.all_eq_true] at h
  have := h m hm
  cases hc : w.calls[m]? with
  | none => simp [hc] at this
  | some c =>
    obtain ⟨rq, rs, nx⟩ := c
    cases rs with
    | fulfilled v => exact ⟨_, rfl, v, rfl⟩
    | pending => simp [hc] at this
    | rejected => simp [hc] at this

theorem settle_tag (fromJSON : R → M) (w : World M) (i : Nat) (c : Call M)
    (records : List R) (k : Nat) (q : String) (ms : List Nat)
    (h : w.calls[i]? = some c) (hc : c.result = PState.pending)
    (hn : c.next = Reaction.tag k q) (hr : w.rounds[k]? = some ms) :
    settle fromJSON w i (Outcome.success records) =
      if allFulfilled
          { w with calls := w.calls.set i { c with result := PState.fulfilled (records.map fromJSON) } }
          ms = true then
        onRoundSettled
          { w with calls := w.calls.set i { c with result := PState.fulfilled (records.map fromJSON) } }
          (results
            { w with calls := w.calls.set i { c with result := PState.fulfilled (records.map fromJSON) } }
            ms)
      else
        { w with calls := w.calls.set i { c with result := PState.fulfilled (records.map fromJSON) } } := by
  unfold settle
  obtain ⟨rq, rs, nx⟩ := c
  simp only at hc hn
  subst hc hn
  simp [h, hr, _deserializeFieldTypes]

theorem fulfil_getElem?_self (w : World M) (i : Nat) (c : Call M) (v : List M)
    (h : w.calls[i]? = some c) :
    (fulfil w i c v).calls[i]? = some { c with result := PState.fulfilled v } := by
  have hlt := (List.getElem?_eq_some.mp h).1
  simp [fulfil, List.getElem?_set_self hlt]

theorem fulfil_getElem?_ne (w : World M) (i m : Nat) (c : Call M) (v : List M)
    (h : m ≠ i) : (fulfil w i c v).calls[m]? = w.calls[m]? := by
  simp [fulfil, List.getElem?_set_ne (Ne.symm h)]

theorem tagOf_fulfil (w : World M) (i m : Nat) (c : Call M) (v : List M)
    (h : w.calls[i]? = some c) : tagOf (fulfil w i c v) m = tagOf w m := by
  by_cases e : m = i
  · subst e
    simp [tagOf, fulfil_getElem?_self w m c v h, h]
  · simp [tagOf, fulfil_getElem?_ne w i m c v e]

theorem valueOf_fulfil_self (w : World M) (i : Nat) (c : Call M) (v : List M)
    (h : w.calls[i]? = some c) : valueOf (fulfil w i c v) i = v := by
  simp [valueOf, fulfil_getElem?_self w i c v h]

theorem valueOf_fulfil_ne (w : World M) (i m : Nat) (c : Call M) (v : List M)
    (h : m ≠ i) : valueOf (fulfil w i c v) m = valueOf w m := by
  simp [valueOf, fulfil_getElem?_ne w i m c v h]

theorem round_done (fromJSON : R → M) (w : World M) (j : Nat) (c : Call M)
    (records : List R) (k : Nat) (q : String) (ms : List Nat)
    (h : w.calls[j]? = some c) (hc : c.result = PState.pending)
    (hn : c.next = Reaction.tag k q) (hr : w.rounds[k]? = some ms)
    (hrest : ∀ m ∈ ms, m ≠ j → ∃ c' : Call M, w.calls[m]? = some c' ∧
      (∃ k' q', c'.next = Reaction.tag k' q') ∧ ∃ v, c'.result = PState.fulfilled v) :
    settle fromJSON w j (Outcome.success records) =
      { fulfil w j c (records.map fromJSON) with
        queryFields := combined
          (ms.map (fun m => (tagOf w m, valueOf (fulfil w j c (records.map fromJSON)) m))),
        notified := w.notified ++ [StoreState.mk w.all (combined
          (ms.map (fun m => (tagOf w m, valueOf (fulfil w j c (records.map fromJSON)) m))))] } := by
  have hall : ∀ m ∈ ms, ∃ c' : Call M, (fulfil w j c (records.map fromJSON)).calls[m]? = some c' ∧
      (∃ k' q', c'.next = Reaction.tag k' q') ∧ ∃ v, c'.result = PState.fulfilled v := by
    intro m hm
    by_cases e : m = j
    · subst e
      exact ⟨_, fulfil_getElem?_self w m c _ h, ⟨k, q, hn⟩, _, rfl⟩
    · rw [fulfil_getElem?_ne w j m c _ e]
      exact hrest m hm e
  have hf : allFulfilled (fulfil w j c (records.map fromJSON)) ms = true :=
    allFulfilled_of _ _ (fun m hm => by
      obtain ⟨c', h1, _, h3⟩ := hall m hm
      exact ⟨c', h1, h3⟩)
  have hres := results_eq_map (fulfil w j c (records.map fromJSON)) ms hall
  have htag : (fun m => (tagOf (fulfil w j c (records.map fromJSON)) m,
      valueOf (fulfil w j c (records.map fromJSON)) m)) =
      (fun m => (tagOf w m, valueOf (fulfil w j c (records.map fromJSON)) m)) := by
    funext m
    rw [tagOf_fulfil w j m c _ h]
  rw [htag] at hres
  have hs := settle_tag fromJSON w j c records k q ms h hc hn hr
  change settle fromJSON w j (Outcome.success records) =
    if allFulfilled (fulfil w j c (records.map fromJSON)) ms = true then
      onRoundSettled (fulfil w j c (records.map fromJSON))
        (results (fulfil w j c (records.map fromJSON)) ms)
    else fulfil w j c (records.map fromJSON) at hs
  rw [hs, if_pos hf, hres]
  rfl

theorem round_registered (w : World M) (nf : Snapshot) (W : World M)
    (hl : Later (onQueryFiltersUpdate w nf) W) :
    W.rounds[w.rounds.length]? =
      some (List.range' w.calls.length (streamGroups nf).length) := by
  obtain ⟨⟨extra, he⟩, _⟩ := hl
  rw [he, onQueryFiltersUpdate_rounds, List.append_assoc,
    List.getElem?_append_right (Nat.le_refl _)]
  simp

theorem round_member (w : World M) (nf : Snapshot) (W : World M)
    (hl : Later (onQueryFiltersUpdate w nf) W) (p : Nat) (t : String × List (Option String))
    (ht : (streamGroups nf)[p]? = some t) :
    ∃ c : Call M, W.calls[w.calls.length + p]? = some c ∧
      c.next = Reaction.tag w.rounds.length t.1 ∧
      c.request = { verb := Verb.POST, url := fieldTypesUrl, streams := some t.2 } := by
  have hv : (onQueryFiltersUpdate w nf).calls[w.calls.length + p]? =
      some (scopedCall w.rounds.length t) := by
    rw [onQueryFiltersUpdate_calls, List.getElem?_append_right (Nat.le_add_right _ _)]
    simp [List.getElem?_map, ht]
  obtain ⟨c, hc, hq, hn, _⟩ := hl.2 _ _ hv
  exact ⟨c, hc, hn, hq⟩

theorem round_member_of_mem (w : World M) (nf : Snapshot) (m : Nat)
    (hm : m ∈ List.range' w.calls.length (streamGroups nf).length) :
    ∃ p t, m = w.calls.length + p ∧ (streamGroups nf)[p]? = some t := by
  rw [List.mem_range'_1] at hm
  have h : m - w.calls.length < (streamGroups nf).length := by omega
  exact ⟨m - w.calls.length, _, by omega, List.getElem?_eq_getElem h⟩

theorem round_tags (w : World M) (nf : Snapshot) (W : World M)
    (hl : Later (onQueryFiltersUpdate w nf) W) :
    (List.range' w.calls.length (streamGroups nf).length).map (tagOf W) =
      (streamGroups nf).map Prod.fst := by
  apply List.ext_getElem?
  intro p
  rw [List.getElem?_map, List.getElem?_map]
  by_cases hp : p < (streamGroups nf).length
  · rw [List.getElem?_range' _ _ hp, List.getElem?_eq_getElem hp]
    obtain ⟨c, hc, hn, _⟩ := round_member w nf W hl p _ (List.getElem?_eq_getElem hp)
    simp [tagOf, hc, hn]
  · rw [List.getElem?_eq_none (by simpa using hp), List.getElem?_eq_none (by simpa using hp)]
    rfl

theorem streamGroups_nodup (nf : Snapshot) (hk : (nf.map Prod.fst).Nodup) :
    ((streamGroups nf).map Prod.fst).Nodup := by
  rw [streamGroups_keys]
  exact List.Nodup.sublist ((List.filter_sublist nf).map Prod.fst) hk

theorem streamGroups_key_mem (nf : Snapshot) (k : String)
    (h : k ∈ (streamGroups nf).map Prod.fst) : k ∈ nf.map Prod.fst := by
  rw [streamGroups_keys] at h
  exact ((List.filter_sublist nf).map Prod.fst).subset h

/-- A round over ordinary group ids: for a snapshot with distinct group ids,
none of which is `__proto__`, `onQueryFiltersUpdate` issues one scoped call per
group with a stream-type filter (tagged with the group's id, in snapshot
order); and in any execution, when the last pending one of these calls
succeeds while the others are fulfilled, `queryFields` becomes a map whose
keys are exactly the ids of those groups, as many as there are such groups,
each mapped to the value its group's promise is fulfilled with, and one
notification carrying that map is emitted. Nothing of the previous
`queryFields` is kept. -/
theorem filters_round_recomputes (fromJSON : R → M) (w : World M) (nf : Snapshot)
    (hk : (nf.map Prod.fst).Nodup) (hproto : ∀ kv ∈ nf, kv.1 ≠ "__proto__")
    (es : List (Event R)) (j : Nat) (records : List R)
    (hj : j ∈ List.range' w.calls.length (streamGroups nf).length)
    (hpend : ((run fromJSON (onQueryFiltersUpdate w nf) es).calls[j]?).map Call.result =
      some PState.pending)
    (hrest : ∀ m ∈ List.range' w.calls.length (streamGroups nf).length, m ≠ j →
      ∃ v, ((run fromJSON (onQueryFiltersUpdate w nf) es).calls[m]?).map Call.result =
        some (PState.fulfilled v)) :
    (onQueryFiltersUpdate w nf).calls =
      w.calls ++ (streamGroups nf).map (scopedCall w.rounds.length) ∧
    (streamGroups nf).map Prod.fst =
      (nf.filter (fun kv => hasStreamFilter kv.2)).map Prod.fst ∧
    ∃ kvs : List (String × List M),
      (settle fromJSON (run fromJSON (onQueryFiltersUpdate w nf) es) j
        (Outcome.success records)).queryFields = Value.map kvs ∧
      (∀ key, key ∈ kvs.map Prod.fst ↔ ∃ s, (key, s) ∈ nf ∧ hasStreamFilter s = true) ∧
      kvs.length = (nf.filter (fun kv => hasStreamFilter kv.2)).length ∧
      (∀ p t, (streamGroups nf)[p]? = some t →
        getProp kvs t.1 = some (valueOf (settle fromJSON
          (run fromJSON (onQueryFiltersUpdate w nf) es) j (Outcome.success records))
          (w.calls.length + p))) ∧
      valueOf (settle fromJSON (run fromJSON (onQueryFiltersUpdate w nf) es) j
        (Outcome.success records)) j = records.map fromJSON ∧
      (settle fromJSON (run fromJSON (onQueryFiltersUpdate w nf) es) j
        (Outcome.success records)).notified =
        (run fromJSON (onQueryFiltersUpdate w nf) es).notified ++
          [{ all := (run fromJSON (onQueryFiltersUpdate w nf) es).all,
             queryFields := Value.map kvs }] := by
  refine ⟨onQueryFiltersUpdate_calls w nf, streamGroups_keys nf, ?_⟩
  have hl := run_later fromJSON (onQueryFiltersUpdate w nf) es
  generalize run fromJSON (onQueryFiltersUpdate w nf) es = W at hl hpend hrest ⊢
  obtain ⟨pj, tj, hjp, htj⟩ := round_member_of_mem w nf j hj
  obtain ⟨c, hc, hn, _⟩ := round_member w nf W hl pj tj htj
  rw [← hjp] at hc
  have hcp : c.result = PState.pending := by
    rw [hc] at hpend
    simpa using hpend
  have hr := round_registered w nf W hl
  have hrest' : ∀ m ∈ List.range' w.calls.length (streamGroups nf).length, m ≠ j →
      ∃ c' : Call M, W.calls[m]? = some c' ∧
        (∃ k' q', c'.next = Reaction.tag k' q') ∧ ∃ v, c'.result = PState.fulfilled v := by
    intro m hm hne
    obtain ⟨p, t, hmp, ht⟩ := round_member_of_mem w nf m hm
    obtain ⟨c', hc', hn', _⟩ := round_member w nf W hl p t ht
    rw [← hmp] at hc'
    obtain ⟨v, hv⟩ := hrest m hm hne
    rw [hc'] at hv
    exact ⟨c', hc', ⟨_, _, hn'⟩, v, by simpa using hv⟩
  have htags := round_tags w nf W hl
  have hnd : ((List.range' w.calls.length (streamGroups nf).length).map (tagOf W)).Nodup := by
    rw [htags]
    exact streamGroups_nodup nf hk
  have hF := round_done fromJSON W j c records _ _ _ hc hcp hn hr hrest'
  have hkeys : ((List.range' w.calls.length (streamGroups nf).length).map
      (fun m => (tagOf W m, valueOf (fulfil W j c (records.map fromJSON)) m))).map Prod.fst =
      (streamGroups nf).map Prod.fst := by
    rw [List.map_map, ← htags]
    rfl
  have hmap := combined_eq_map
    ((List.range' w.calls.length (streamGroups nf).length).map
      (fun m => (tagOf W m, valueOf (fulfil W j c (records.map fromJSON)) m)))
    (by rw [hkeys]; exact streamGroups_nodup nf hk)
    (by
      intro kv hkv hbad
      have h1 : kv.1 ∈ (streamGroups nf).map Prod.fst := by
        rw [← hkeys]
        exact List.mem_map.mpr ⟨kv, hkv, rfl⟩
      obtain ⟨kv', hkv', he⟩ := List.mem_map.mp (streamGroups_key_mem nf kv.1 h1)
      exact hproto kv' hkv' (he.trans hbad))
  rw [hmap] at hF
  clear hnd
  refine ⟨(List.range' w.calls.length (streamGroups nf).length).map
    (fun m => (tagOf W m, valueOf (fulfil W j c (records.map fromJSON)) m)), ?_, ?_, ?_, ?_, ?_, ?_⟩
  · rw [hF]
  · intro key
    rw [hkeys, streamGroups_keys]
    simp only [List.mem_map, List.mem_filter]
    constructor
    · rintro ⟨⟨k, s⟩, ⟨hmem, hs⟩, rfl⟩
      exact ⟨s, hmem, hs⟩
    · rintro ⟨s, hmem, hs⟩
      exact ⟨(key, s), ⟨hmem, hs⟩, rfl⟩
  · have := congrArg List.length (streamGroups_keys nf)
    simp only [List.length_map] at this
    simp [this]
  · intro p t ht
    rw [hF]
    apply getProp_of_mem
    · rw [hkeys]
      exact streamGroups_nodup nf hk
    · obtain ⟨c', hc', hn', _⟩ := round_member w nf W hl p t ht
      have hp : p < (streamGroups nf).length := (List.getElem?_eq_some.mp ht).1
      refine List.mem_map.mpr ⟨w.calls.length + p, ?_, ?_⟩
      · rw [List.mem_range'_1]
        omega
      · have : tagOf W (w.calls.length + p) = t.1 := by simp [tagOf, hc', hn']
        rw [this]
        rfl
  · rw [hF]
    exact valueOf_fulfil_self W j c _ hc
  · rw [hF]

theorem filters_round_recomputes_witness :
    (demoSnapshot.map Prod.fst).Nodup ∧
    ((onQueryFiltersUpdate demoWorld demoSnapshot).calls.map Call.request =
      [{ verb := Verb.POST, url := fieldTypesUrl, streams := some [some "s1"] },
       { verb := Verb.POST, url := fieldTypesUrl, streams := some [some "s2", some "s3"] }]) ∧
    ∃ kvs : List (String × List Nat),
      (settle (fun n : Nat => n + 10)
        (run (fun n : Nat => n + 10) (onQueryFiltersUpdate demoWorld demoSnapshot)
          [Event.settle 1 (Outcome.success [5, 6])]) 0 (Outcome.success [7])).queryFields =
        Value.map kvs ∧
      kvs.length = 2 ∧ getProp kvs "q1" = some [17] ∧ getProp kvs "q2" = some [15, 16] ∧
      getProp kvs "old" = none :=
  have h := filters_round_recomputes (fun n : Nat => n + 10) demoWorld demoSnapshot (by decide)
    (by decide) [Event.settle 1 (Outcome.success [5, 6])] 0 [7] (by decide) (by decide)
    (fun m hm hne => by
      have h1 : m = 1 := by
        have := List.mem_range'_1.mp hm
        have h2 : (streamGroups demoSnapshot).length = 2 := by decide
        have h3 : demoWorld.calls.length = 0 := rfl
        omega
      subst h1
      exact ⟨[15, 16], by decide⟩)
  ⟨by decide, by rw [h.1]; decide,
    match h.2.2 with
    | ⟨kvs, hq, hkeys, hlen, hget, _, _⟩ =>
      ⟨kvs, hq, hlen.trans (by decide),
        (hget 0 ("q1", [some "s1"]) (by decide)).trans (by decide),
        (hget 1 ("q2", [some "s2", some "s3"]) (by decide)).trans (by decide),
        getProp_of_not_mem kvs "old" (fun hmem =>
          match (hkeys "old").mp hmem with
          | ⟨_, hs, _⟩ => by simp [demoSnapshot] at hs)⟩⟩

/-- C3: the claim fails on the code at a group id `__proto__`. Both groups of
`protoSnapshot` have a stream filter and both get their request; when both
requests have succeeded, with [1] and [2], the assignment of line 55 for the
id `__proto__` has replaced the prototype of `combinedResult` instead of
defining a key, `Immutable.fromJS` leaves that object unconverted, and
`queryFields` is a plain object whose only own key is `q`: it is not a Map,
against the type declared at line 25, and it has no key for the group
`__proto__`. -/
theorem proto_group_id_breaks_queryFields :
    (protoSnapshot.map Prod.fst).Nodup ∧
    (List.all protoSnapshot (fun kv => hasStreamFilter kv.2)) = true ∧
    (onQueryFiltersUpdate demoWorld protoSnapshot).calls.map Call.request =
      [{ verb := Verb.POST, url := fieldTypesUrl, streams := some [some "a"] },
       { verb := Verb.POST, url := fieldTypesUrl, streams := some [some "b"] }] ∧
    (run (fun n : Nat => n) (onQueryFiltersUpdate demoWorld protoSnapshot)
      [Event.settle 0 (Outcome.success [1]), Event.settle 1 (Outcome.success [2])]).queryFields =
      Value.object [("q", [2])] [1] ∧
    (run (fun n : Nat => n) (onQueryFiltersUpdate demoWorld protoSnapshot)
      [Event.settle 0 (Outcome.success [1]),
       Event.settle 1 (Outcome.success [2])]).queryFields.isMap = false ∧
    (run (fun n : Nat => n) (onQueryFiltersUpdate demoWorld protoSnapshot)
      [Event.settle 0 (Outcome.success [1]), Event.settle 1 (Outcome.success [2])]).notified =
      [{ all := Value.list [1], queryFields := Value.object [("q", [2])] [1] }] := by
  decide

theorem settle_frame_or_full (fromJSON : R → M) (w : World M) (j : Nat) (o : Outcome R)
    (c : Call M) (k : Nat) (q : String) (ms : List Nat)
    (h : w.calls[j]? = some c) (hn : c.next = Reaction.tag k q) (hr : w.rounds[k]? = some ms) :
    ((settle fromJSON w j o).all = w.all ∧ (settle fromJSON w j o).queryFields = w.queryFields ∧
      (settle fromJSON w j o).notified = w.notified) ∨
    allFulfilled (settle fromJSON w j o) ms = true := by
  by_cases hc : c.result = PState.pending
  · cases o with
    | failure =>
      rw [settle_failure fromJSON w j c h hc]
      exact Or.inl ⟨rfl, rfl, rfl⟩
    | success records =>
      rw [settle_tag fromJSON w j c records k q ms h hc hn hr]
      split
      · rename_i hfull
        exact Or.inr hfull
      · exact Or.inl ⟨rfl, rfl, rfl⟩
  · rw [settle_of_settled fromJSON w j o c h hc]
    exact Or.inl ⟨rfl, rfl, rfl⟩

/-- C6: take any execution that contains the handling of a snapshot and, later,
the settling of one of that round's requests (with any events before and
after). If at its end some request of the round is rejected, then neither the
handler nor that settling step changed `all` or `queryFields` or notified the
subscribers, whatever the outcome of the step itself. -/
theorem failed_round_is_silent (fromJSON : R → M) (w : World M) (nf : Snapshot)
    (es₁ : List (Event R)) (j : Nat) (o : Outcome R) (es₂ : List (Event R)) (m : Nat)
    (hj : j ∈ List.range' w.calls.length (streamGroups nf).length)
    (hm : m ∈ List.range' w.calls.length (streamGroups nf).length)
    (hfail : ((run fromJSON (settle fromJSON (run fromJSON (onQueryFiltersUpdate w nf) es₁) j o)
      es₂).calls[m]?).map Call.result = some PState.rejected) :
    (onQueryFiltersUpdate w nf).all = w.all ∧
    (onQueryFiltersUpdate w nf).queryFields = w.queryFields ∧
    (onQueryFiltersUpdate w nf).notified = w.notified ∧
    (settle fromJSON (run fromJSON (onQueryFiltersUpdate w nf) es₁) j o).all =
      (run fromJSON (onQueryFiltersUpdate w nf) es₁).all ∧
    (settle fromJSON (run fromJSON (onQueryFiltersUpdate w nf) es₁) j o).queryFields =
      (run fromJSON (onQueryFiltersUpdate w nf) es₁).queryFields ∧
    (settle fromJSON (run fromJSON (onQueryFiltersUpdate w nf) es₁) j o).notified =
      (run fromJSON (onQueryFiltersUpdate w nf) es₁).notified := by
  have hne : streamGroups nf ≠ [] := by
    intro e
    rw [e] at hj
    simp at hj
  obtain ⟨h1, h2, h3⟩ := onQueryFiltersUpdate_of_ne_nil w nf hne
  refine ⟨h1, h2, h3, ?_⟩
  have hl := run_later fromJSON (onQueryFiltersUpdate w nf) es₁
  have hl₂ := run_later fromJSON
    (settle fromJSON (run fromJSON (onQueryFiltersUpdate w nf) es₁) j o) es₂
  generalize run fromJSON (onQueryFiltersUpdate w nf) es₁ = W at hl hl₂ hfail ⊢
  obtain ⟨pj, tj, hjp, htj⟩ := round_member_of_mem w nf j hj
  obtain ⟨c, hc, hn, _⟩ := round_member w nf W hl pj tj htj
  rw [← hjp] at hc
  rcases settle_frame_or_full fromJSON W j o c _ _ _ hc hn (round_registered w nf W hl) with
    hframe | hfull
  · exact hframe
  · exfalso
    obtain ⟨cm, hcm, v, hv⟩ := allFulfilled_elim _ _ hfull m hm
    obtain ⟨cz, hcz, _, _, hres⟩ := hl₂.2 m cm hcm
    rw [hcz] at hfail
    have hz : cz.result = PState.rejected := by simpa using hfail
    rw [hres (by rw [hv]; simp), hv] at hz
    cases hz

theorem failed_round_is_silent_witness :
    (settle (fun n : Nat => n + 10)
      (run (fun n : Nat => n + 10) (onQueryFiltersUpdate demoWorld demoSnapshot)
        [Event.settle 1 Outcome.failure]) 0 (Outcome.success [7])).queryFields =
      Value.map [("old", [2])] ∧
    (settle (fun n : Nat => n + 10)
      (run (fun n : Nat => n + 10) (onQueryFiltersUpdate demoWorld demoSnapshot)
        [Event.settle 1 Outcome.failure]) 0 (Outcome.success [7])).notified = [] :=
  have h := failed_round_is_silent (fun n : Nat => n + 10) demoWorld demoSnapshot
    [Event.settle 1 Outcome.failure] 0 (Outcome.success [7]) [Event.all] 1
    (by decide) (by decide) (by decide)
  ⟨h.2.2.2.2.1.trans (by decide), h.2.2.2.2.2.trans (by decide)⟩

theorem onQueryFiltersUpdate_all (w : World M) (nf : Snapshot) :
    (onQueryFiltersUpdate w nf).all = w.all := by
  by_cases h : streamGroups nf = []
  · rw [onQueryFiltersUpdate_of_nil w nf h]
  · exact (onQueryFiltersUpdate_of_ne_nil w nf h).1

/-- C8: the claim fails on the code. On a freshly created store, before the
first GET has completed, `getInitialState` returns a state whose `all` field
is the store's own `all` method (whatever `QueryFiltersStore` delivers at
subscription) and whose `queryFields` is undefined when no filter round has
run; and the state passed to subscribers by the first successful `all()` then
has an undefined `queryFields`. Neither state has the declared type. -/
theorem initial_state_breaks_declared_type :
    (∀ initialFilters : Option Snapshot,
      (getInitialState (init (fresh : World Nat) initialFilters)).all = Value.method) ∧
    getInitialState (init (fresh : World Nat) none) =
      { all := Value.method, queryFields := Value.undefined } ∧
    (getInitialState (init (fresh : World Nat) none)).wellTyped = false ∧
    (settle (fun n : Nat => n) (init (fresh : World Nat) none) 0
      (Outcome.success [1, 2])).notified =
      [{ all := Value.list [1, 2], queryFields := Value.undefined }] ∧
    (List.all (settle (fun n : Nat => n) (init (fresh : World Nat) none) 0
      (Outcome.success [1, 2])).notified StoreState.wellTyped) = false := by
  refine ⟨?_, rfl, rfl, by decide, by decide⟩
  intro initialFilters
  cases initialFilters with
  | none => rfl
  | some nf =>
    show (onQueryFiltersUpdate (all (fresh : World Nat)).1 nf).all = Value.method
    rw [onQueryFiltersUpdate_all]
    rfl

end FieldTypesStore

/-! ## Overlapping rounds -/

namespace FieldTypesStore

variable {R M : Type}

theorem settle_all_of_tag (fromJSON : R → M) (w : World M) (i : Nat) (o : Outcome R)
    (c : Call M) (k : Nat) (q : String) (h : w.calls[i]? = some c)
    (hn : c.next = Reaction.tag k q) : (settle fromJSON w i o).all = w.all := by
  unfold settle
  obtain ⟨rq, rs, nx⟩ := c
  simp only at hn
  subst hn
  cases rs <;> cases o <;> simp [h, onRoundSettled, _trigger]
  split <;> [rfl; (split <;> rfl)]

theorem run_append_settle (fromJSON : R → M) (resp : Nat → List R) (V : World M)
    (ds : List Nat) (d : Nat) :
    run fromJSON V ((ds ++ [d]).map (fun d => Event.settle d (Outcome.success (resp d)))) =
      settle fromJSON
        (run fromJSON V (ds.map (fun d => Event.settle d (Outcome.success (resp d)))))
        d (Outcome.success (resp d)) := by
  simp [run, step, List.foldl_append]

theorem run_settles_calls (fromJSON : R → M) (resp : Nat → List R) (V : World M)
    (ds : List Nat)
    (hds : ∀ d ∈ ds, ∃ (c : Call M) (k : Nat) (q : String),
      V.calls[d]? = some c ∧ c.result = PState.pending ∧ c.next = Reaction.tag k q) :
    (run fromJSON V (ds.map (fun d => Event.settle d (Outcome.success (resp d))))).rounds =
      V.rounds ∧
    (run fromJSON V (ds.map (fun d => Event.settle d (Outcome.success (resp d))))).all =
      V.all ∧
    ∀ m, (run fromJSON V
        (ds.map (fun d => Event.settle d (Outcome.success (resp d))))).calls[m]? =
      (V.calls[m]?).map (fun c =>
        if m ∈ ds then { c with result := PState.fulfilled ((resp m).map fromJSON) } else c) := by
  induction ds using List.reverseRecOn with
  | nil => simp [run]
  | append_singleton ds d ih =>
    obtain ⟨hr, ha, hcalls⟩ := ih (fun d' hd' => hds d' (by simp [hd']))
    obtain ⟨c, k, q, hc, hp, hn⟩ := hds d (by simp)
    rw [run_append_settle]
    generalize run fromJSON V (ds.map (fun d => Event.settle d (Outcome.success (resp d)))) = W
      at hr ha hcalls ⊢
    have hWd := hcalls d
    rw [hc] at hWd
    simp only [Option.map_some'] at hWd
    refine ⟨by rw [settle_rounds, hr], ?_, ?_⟩
    · rw [settle_all_of_tag fromJSON W d _ _ k q hWd (by split <;> exact hn), ha]
    · intro m
      by_cases hmem : d ∈ ds
      · rw [if_pos hmem] at hWd
        rw [settle_of_settled fromJSON W d _ _ hWd (by simp), hcalls m]
        have : (m ∈ ds ++ [d]) ↔ m ∈ ds := by
          simp only [List.mem_append, List.mem_singleton]
          constructor
          · rintro (h | h)
            · exact h
            · exact h ▸ hmem
          · exact Or.inl
        simp only [this]
      · rw [if_neg hmem] at hWd
        rw [settle_calls fromJSON W d _ c hWd hp]
        by_cases e : m = d
        · subst e
          have hlt := (List.getElem?_eq_some.mp hWd).1
          rw [List.getElem?_set_self hlt, hc]
          simp [settledResult, _deserializeFieldTypes]
        · rw [List.getElem?_set_ne (Ne.symm e), hcalls m]
          have : (m ∈ ds ++ [d]) ↔ m ∈ ds := by
            simp [e]
          simp only [this]

theorem allFulfilled_false_of_pending (w : World M) (ms : List Nat) (m : Nat) (c : Call M)
    (hm : m ∈ ms) (hc : w.calls[m]? = some c) (hp : c.result = PState.pending) :
    allFulfilled w ms = false := by
  cases h : allFulfilled w ms with
  | false => rfl
  | true =>
    obtain ⟨c', hc', v, hv⟩ := allFulfilled_elim w ms h m hm
    rw [hc] at hc'
    cases hc'
    rw [hp] at hv
    cases hv

theorem settle_tag_not_full (fromJSON : R → M) (w : World M) (i : Nat) (c : Call M)
    (records : List R) (k : Nat) (q : String) (ms : List Nat)
    (h : w.calls[i]? = some c) (hc : c.result = PState.pending)
    (hn : c.next = Reaction.tag k q) (hr : w.rounds[k]? = some ms)
    (hf : allFulfilled (fulfil w i c (records.map fromJSON)) ms = false) :
    settle fromJSON w i (Outcome.success records) = fulfil w i c (records.map fromJSON) := by
  have hs := settle_tag fromJSON w i c records k q ms h hc hn hr
  change settle fromJSON w i (Outcome.success records) =
    if allFulfilled (fulfil w i c (records.map fromJSON)) ms = true then
      onRoundSettled (fulfil w i c (records.map fromJSON))
        (results (fulfil w i c (records.map fromJSON)) ms)
    else fulfil w i c (records.map fromJSON) at hs
  rw [hs, hf]
  simp

theorem tagOf_of_calls (fromJSON : R → M) (resp : Nat → List R) (V W : World M)
    (ds : List Nat) (m : Nat)
    (hcalls : W.calls[m]? = (V.calls[m]?).map (fun c =>
        if m ∈ ds then { c with result := PState.fulfilled ((resp m).map fromJSON) } else c)) :
    tagOf W m = tagOf V m := by
  unfold tagOf
  rw [hcalls]
  cases V.calls[m]? with
  | none => rfl
  | some c =>
    simp only [Option.map_some']
    split_ifs <;> rfl

theorem run_settles_other (fromJSON : R → M) (resp : Nat → List R) (V : World M)
    (kX kY : Nat) (msX msY : List Nat) (j : Nat)
    (hrX : V.rounds[kX]? = some msX) (hrY : V.rounds[kY]? = some msY)
    (hX : ∀ m ∈ msX, ∃ (c : Call M) (q : String),
      V.calls[m]? = some c ∧ c.result = PState.pending ∧ c.next = Reaction.tag kX q)
    (hY : ∀ m ∈ msY, ∃ (c : Call M) (q : String),
      V.calls[m]? = some c ∧ c.result = PState.pending ∧ c.next = Reaction.tag kY q)
    (hjY : j ∈ msY)
    (ds : List Nat) (hds : ∀ d ∈ ds, (d ∈ msX ∨ d ∈ msY) ∧ d ≠ j) :
    ((msX ≠ [] ∧ msX ⊆ ds) →
      (run fromJSON V (ds.map (fun d => Event.settle d (Outcome.success (resp d))))).queryFields =
        combined (msX.map (fun m => (tagOf V m, (resp m).map fromJSON))) ∧
      (run fromJSON V (ds.map (fun d => Event.settle d (Outcome.success (resp d))))).notified =
        V.notified ++ [StoreState.mk V.all
          (combined (msX.map (fun m => (tagOf V m, (resp m).map fromJSON))))]) ∧
    (¬ (msX ≠ [] ∧ msX ⊆ ds) →
      (run fromJSON V (ds.map (fun d => Event.settle d (Outcome.success (resp d))))).queryFields =
        V.queryFields ∧
      (run fromJSON V (ds.map (fun d => Event.settle d (Outcome.success (resp d))))).notified =
        V.notified) := by
  have hpend : ∀ d, (d ∈ msX ∨ d ∈ msY) → ∃ (c : Call M) (k : Nat) (q : String),
      V.calls[d]? = some c ∧ c.result = PState.pending ∧ c.next = Reaction.tag k q := by
    intro d hd
    rcases hd with h | h
    · obtain ⟨c, q, h1, h2, h3⟩ := hX d h
      exact ⟨c, kX, q, h1, h2, h3⟩
    · obtain ⟨c, q, h1, h2, h3⟩ := hY d h
      exact ⟨c, kY, q, h1, h2, h3⟩
  induction ds using List.reverseRecOn with
  | nil =>
    constructor
    · rintro ⟨hne, hsub⟩
      exact absurd (List.eq_nil_of_subset_nil hsub) hne
    · intro _
      exact ⟨rfl, rfl⟩
  | append_singleton ds d ih =>
    have hds' : ∀ d' ∈ ds, (d' ∈ msX ∨ d' ∈ msY) ∧ d' ≠ j :=
      fun d' hd' => hds d' (by simp [hd'])
    have ih' := ih hds'
    obtain ⟨hr, ha, hcalls⟩ := run_settles_calls fromJSON resp V ds
      (fun d' hd' => hpend d' (hds' d' hd').1)
    obtain ⟨hdm, hdj⟩ := hds d (by simp)
    rw [run_append_settle]
    generalize run fromJSON V (ds.map (fun d => Event.settle d (Outcome.success (resp d)))) = W
      at hr ha hcalls ih' ⊢
    have hjds : j ∉ ds := fun h => (hds' j h).2 rfl
    by_cases hmem : d ∈ ds
    · -- the request is already settled: nothing happens
      obtain ⟨c, k, q, hc, hp, hn⟩ := hpend d hdm
      have hWd := hcalls d
      rw [hc] at hWd
      simp only [Option.map_some', hmem, ↓reduceIte] at hWd
      rw [settle_of_settled fromJSON W d _ _ hWd (by simp)]
      have hsub : msX ⊆ ds ++ [d] ↔ msX ⊆ ds := by
        constructor
        · intro h m hm
          rcases List.mem_append.mp (h hm) with h1 | h1
          · exact h1
          · rw [List.mem_singleton.mp h1]; exact hmem
        · intro h m hm
          exact List.mem_append_left _ (h hm)
      rw [hsub]
      exact ih'
    · by_cases hdX : d ∈ msX
      · -- a request of the other round
        obtain ⟨c, q, hc, hp, hn⟩ := hX d hdX
        have hWd := hcalls d
        rw [hc] at hWd
        simp only [Option.map_some', hmem, ↓reduceIte] at hWd
        have hnotP : ¬ (msX ≠ [] ∧ msX ⊆ ds) := fun h => hmem (h.2 hdX)
        obtain ⟨hq0, hn0⟩ := ih'.2 hnotP
        have hrW : W.rounds[kX]? = some msX := by rw [hr]; exact hrX
        by_cases hsub : msX ⊆ ds ++ [d]
        · have hrest : ∀ m ∈ msX, m ≠ d → ∃ c' : Call M, W.calls[m]? = some c' ∧
              (∃ k' q', c'.next = Reaction.tag k' q') ∧ ∃ v, c'.result = PState.fulfilled v := by
            intro m hm hne
            have hmds : m ∈ ds := by
              rcases List.mem_append.mp (hsub hm) with h1 | h1
              · exact h1
              · exact absurd (List.mem_singleton.mp h1) hne
            obtain ⟨cm, qm, hcm, _, hnm⟩ := hX m hm
            refine ⟨{ cm with result := PState.fulfilled ((resp m).map fromJSON) }, ?_,
              ⟨kX, qm, hnm⟩, _, rfl⟩
            rw [hcalls m, hcm]
            simp only [Option.map_some', hmds, ↓reduceIte]
          have htag : ∀ m, tagOf W m = tagOf V m :=
            fun m => tagOf_of_calls fromJSON resp V W ds m (hcalls m)
          have hF := round_done fromJSON W d c (resp d) kX q msX hWd hp hn hrW hrest
          have hval : msX.map (fun m => (tagOf W m,
                valueOf (fulfil W d c ((resp d).map fromJSON)) m)) =
              msX.map (fun m => (tagOf V m, (resp m).map fromJSON)) := by
            apply List.map_congr_left
            intro m hm
            rw [htag m]
            by_cases e : m = d
            · subst e
              rw [valueOf_fulfil_self W m c _ hWd]
            · rw [valueOf_fulfil_ne W d m c _ e]
              obtain ⟨c', hc', _, _⟩ := hrest m hm e
              have hmds : m ∈ ds := by
                rcases List.mem_append.mp (hsub hm) with h1 | h1
                · exact h1
                · exact absurd (List.mem_singleton.mp h1) e
              obtain ⟨cm, qm, hcm, _, _⟩ := hX m hm
              simp [valueOf, hcalls m, hcm, hmds]
          rw [hval] at hF
          constructor
          · intro _
            rw [hF]
            exact ⟨rfl, by rw [hn0, ha]⟩
          · intro h
            exact absurd ⟨List.ne_nil_of_mem hdX, hsub⟩ h
        · have hex : ∃ m, m ∈ msX ∧ m ∉ ds ++ [d] := by
            by_contra hcon
            apply hsub
            intro m hm
            by_contra hm'
            exact hcon ⟨m, hm, hm'⟩
          obtain ⟨m, hm, hmn⟩ := hex
          have hmd : m ≠ d := fun e => hmn (by simp [e])
          have hmds : m ∉ ds := fun h => hmn (List.mem_append_left _ h)
          obtain ⟨cm, qm, hcm, hpm, _⟩ := hX m hm
          have hWm : (fulfil W d c ((resp d).map fromJSON)).calls[m]? = some cm := by
            rw [fulfil_getElem?_ne W d m c _ hmd, hcalls m, hcm]
            simp only [Option.map_some', hmds, ↓reduceIte]
          have hnf := allFulfilled_false_of_pending _ msX m cm hm hWm hpm
          rw [settle_tag_not_full fromJSON W d c (resp d) kX q msX hWd hp hn hrW hnf]
          constructor
          · intro h
            exact absurd h.2 hsub
          · intro _
            exact ⟨hq0, hn0⟩
      · -- a request of the round that `j` belongs to
        have hdY : d ∈ msY := hdm.resolve_left hdX
        obtain ⟨c, q, hc, hp, hn⟩ := hY d hdY
        have hWd := hcalls d
        rw [hc] at hWd
        simp only [Option.map_some', hmem, ↓reduceIte] at hWd
        have hrW : W.rounds[kY]? = some msY := by rw [hr]; exact hrY
        obtain ⟨cj, qj, hcj, hpj, _⟩ := hY j hjY
        have hWj : (fulfil W d c ((resp d).map fromJSON)).calls[j]? = some cj := by
          rw [fulfil_getElem?_ne W d j c _ (Ne.symm hdj), hcalls j, hcj]
          simp only [Option.map_some', hjds, ↓reduceIte]
        have hnf := allFulfilled_false_of_pending _ msY j cj hjY hWj hpj
        rw [settle_tag_not_full fromJSON W d c (resp d) kY q msY hWd hp hn hrW hnf]
        have hsub : msX ⊆ ds ++ [d] ↔ msX ⊆ ds := by
          constructor
          · intro h m hm
            rcases List.mem_append.mp (h hm) with h1 | h1
            · exact h1
            · rw [List.mem_singleton.mp h1] at hm
              exact absurd hm hdX
          · intro h m hm
            exact List.mem_append_left _ (h hm)
        rw [hsub]
        exact ih'

theorem last_settled_wins (fromJSON : R → M) (resp : Nat → List R) (V : World M)
    (kX kY : Nat) (msX msY : List Nat) (j : Nat)
    (hrX : V.rounds[kX]? = some msX) (hrY : V.rounds[kY]? = some msY)
    (hX : ∀ m ∈ msX, ∃ (c : Call M) (q : String),
      V.calls[m]? = some c ∧ c.result = PState.pending ∧ c.next = Reaction.tag kX q)
    (hY : ∀ m ∈ msY, ∃ (c : Call M) (q : String),
      V.calls[m]? = some c ∧ c.result = PState.pending ∧ c.next = Reaction.tag kY q)
    (hjY : j ∈ msY) (hjX : j ∉ msX)
    (ds : List Nat) (hds : ∀ d ∈ ds, (d ∈ msX ∨ d ∈ msY) ∧ d ≠ j)
    (hcover : ∀ m, (m ∈ msX ∨ m ∈ msY) → m ≠ j → m ∈ ds) :
    (settle fromJSON
      (run fromJSON V (ds.map (fun d => Event.settle d (Outcome.success (resp d)))))
      j (Outcome.success (resp j))).queryFields =
        combined (msY.map (fun m => (tagOf V m, (resp m).map fromJSON))) ∧
    (settle fromJSON
      (run fromJSON V (ds.map (fun d => Event.settle d (Outcome.success (resp d)))))
      j (Outcome.success (resp j))).notified =
        (V.notified ++
          (if msX = [] then []
           else [StoreState.mk V.all
             (combined (msX.map (fun m => (tagOf V m, (resp m).map fromJSON))))])) ++
          [StoreState.mk V.all
            (combined (msY.map (fun m => (tagOf V m, (resp m).map fromJSON))))] := by
  have hpend : ∀ d, (d ∈ msX ∨ d ∈ msY) → ∃ (c : Call M) (k : Nat) (q : String),
      V.calls[d]? = some c ∧ c.result = PState.pending ∧ c.next = Reaction.tag k q := by
    intro d hd
    rcases hd with h | h
    · obtain ⟨c, q, h1, h2, h3⟩ := hX d h
      exact ⟨c, kX, q, h1, h2, h3⟩
    · obtain ⟨c, q, h1, h2, h3⟩ := hY d h
      exact ⟨c, kY, q, h1, h2, h3⟩
  obtain ⟨hr, ha, hcalls⟩ := run_settles_calls fromJSON resp V ds
    (fun d' hd' => hpend d' (hds d' hd').1)
  have hother := run_settles_other fromJSON resp V kX kY msX msY j hrX hrY hX hY hjY ds hds
  generalize run fromJSON V (ds.map (fun d => Event.settle d (Outcome.success (resp d)))) = W
    at hr ha hcalls hother ⊢
  have hjds : j ∉ ds := fun h => (hds j h).2 rfl
  obtain ⟨c, q, hc, hp, hn⟩ := hY j hjY
  have hWj : W.calls[j]? = some c := by
    rw [hcalls j, hc]
    simp only [Option.map_some', hjds, ↓reduceIte]
  have hrW : W.rounds[kY]? = some msY := by rw [hr]; exact hrY
  have hmds : ∀ m ∈ msY, m ≠ j → m ∈ ds := fun m hm hne => hcover m (Or.inr hm) hne
  have hrest : ∀ m ∈ msY, m ≠ j → ∃ c' : Call M, W.calls[m]? = some c' ∧
      (∃ k' q', c'.next = Reaction.tag k' q') ∧ ∃ v, c'.result = PState.fulfilled v := by
    intro m hm hne
    obtain ⟨cm, qm, hcm, _, hnm⟩ := hY m hm
    refine ⟨{ cm with result := PState.fulfilled ((resp m).map fromJSON) }, ?_,
      ⟨kY, qm, hnm⟩, _, rfl⟩
    rw [hcalls m, hcm]
    simp only [Option.map_some', hmds m hm hne, ↓reduceIte]
  have htag : ∀ m, tagOf W m = tagOf V m :=
    fun m => tagOf_of_calls fromJSON resp V W ds m (hcalls m)
  have hF := round_done fromJSON W j c (resp j) kY q msY hWj hp hn hrW hrest
  have hval : msY.map (fun m => (tagOf W m,
        valueOf (fulfil W j c ((resp j).map fromJSON)) m)) =
      msY.map (fun m => (tagOf V m, (resp m).map fromJSON)) := by
    apply List.map_congr_left
    intro m hm
    rw [htag m]
    by_cases e : m = j
    · subst e
      rw [valueOf_fulfil_self W m c _ hWj]
    · rw [valueOf_fulfil_ne W j m c _ e]
      obtain ⟨cm, qm, hcm, _, _⟩ := hY m hm
      simp [valueOf, hcalls m, hcm, hmds m hm e]
  rw [hval] at hF
  rw [hF]
  refine ⟨rfl, ?_⟩
  show W.notified ++ [StoreState.mk W.all _] = _
  rw [ha]
  congr 1
  by_cases hnil : msX = []
  · rw [if_pos hnil, List.append_nil]
    exact (hother.2 (fun h => h.1 hnil)).2
  · rw [if_neg hnil]
    refine (hother.1 ⟨hnil, ?_⟩).2
    intro m hm
    exact hcover m (Or.inl hm) (fun e => hjX (e ▸ hm))

theorem resultSet_eq_map (fromJSON : R → M) (resp : Nat → List R) (V : World M)
    (ts : List (String × List (Option String))) (start : Nat)
    (h : (List.range' start ts.length).map (tagOf V) = ts.map Prod.fst) :
    (List.range' start ts.length).map (fun m => (tagOf V m, (resp m).map fromJSON)) =
      resultSet fromJSON resp start ts := by
  induction ts generalizing start with
  | nil => rfl
  | cons t rest ih =>
    simp only [List.length_cons, List.range'_succ, List.map_cons, List.cons.injEq] at h
    simp only [List.length_cons, List.range'_succ, List.map_cons, resultSet]
    rw [ih (start + 1) h.2, h.1]

theorem onQueryFiltersUpdate_pending (w : World M) (nf : Snapshot) (m : Nat)
    (hm : m ∈ List.range' w.calls.length (streamGroups nf).length) :
    ∃ (c : Call M) (q : String), (onQueryFiltersUpdate w nf).calls[m]? = some c ∧
      c.result = PState.pending ∧ c.next = Reaction.tag w.rounds.length q := by
  obtain ⟨p, t, hmp, ht⟩ := round_member_of_mem w nf m hm
  refine ⟨scopedCall w.rounds.length t, t.1, ?_, rfl, rfl⟩
  rw [hmp, onQueryFiltersUpdate_calls, List.getElem?_append_right (Nat.le_add_right _ _)]
  simp [List.getElem?_map, ht]

theorem onQueryFiltersUpdate_length (w : World M) (nf : Snapshot) :
    (onQueryFiltersUpdate w nf).calls.length = w.calls.length + (streamGroups nf).length ∧
    (onQueryFiltersUpdate w nf).rounds.length = w.rounds.length + 1 := by
  rw [onQueryFiltersUpdate_calls, onQueryFiltersUpdate_rounds]
  simp

theorem onQueryFiltersUpdate_notified (fromJSON : R → M) (resp : Nat → List R)
    (w : World M) (nf : Snapshot) :
    (onQueryFiltersUpdate w nf).notified ++
      (if List.range' w.calls.length (streamGroups nf).length = [] then []
       else [StoreState.mk w.all
         (combined (resultSet fromJSON resp w.calls.length (streamGroups nf)))]) =
      w.notified ++ [StoreState.mk w.all
        (combined (resultSet fromJSON resp w.calls.length (streamGroups nf)))] := by
  by_cases h : streamGroups nf = []
  · rw [onQueryFiltersUpdate_of_nil w nf h, h]
    simp [resultSet, combined, fromJS]
  · have hne : List.range' w.calls.length (streamGroups nf).length ≠ [] := by
      cases hs : streamGroups nf with
      | nil => exact absurd hs h
      | cons a l => simp [List.range'_succ]
    rw [if_neg hne, (onQueryFiltersUpdate_of_ne_nil w nf h).2.2]

theorem mem_range'_split (base a b m : Nat) :
    m ∈ List.range' base (a + b) ↔
      (m ∈ List.range' (base + a) b ∨ m ∈ List.range' base a) := by
  simp only [List.mem_range'_1]
  omega

theorem overlapping_rounds_core (fromJSON : R → M) (w : World M)
    (A B : Snapshot) (resp : Nat → List R) (ds : List Nat) (j : Nat)
    (hds : ∀ d ∈ ds, d ∈ List.range' w.calls.length
      ((streamGroups A).length + (streamGroups B).length) ∧ d ≠ j)
    (hj : j ∈ List.range' w.calls.length ((streamGroups A).length + (streamGroups B).length))
    (hcover : ∀ m ∈ List.range' w.calls.length
      ((streamGroups A).length + (streamGroups B).length), m ≠ j → m ∈ ds) :
    (onQueryFiltersUpdate (onQueryFiltersUpdate w A) B).calls =
      (w.calls ++ (streamGroups A).map (scopedCall w.rounds.length)) ++
        (streamGroups B).map (scopedCall (w.rounds.length + 1)) ∧
    (j < w.calls.length + (streamGroups A).length →
      (settle fromJSON (run fromJSON (onQueryFiltersUpdate (onQueryFiltersUpdate w A) B)
          (ds.map (fun d => Event.settle d (Outcome.success (resp d)))))
        j (Outcome.success (resp j))).queryFields =
        combined (resultSet fromJSON resp w.calls.length (streamGroups A)) ∧
      (settle fromJSON (run fromJSON (onQueryFiltersUpdate (onQueryFiltersUpdate w A) B)
          (ds.map (fun d => Event.settle d (Outcome.success (resp d)))))
        j (Outcome.success (resp j))).notified =
        w.notified ++
          [StoreState.mk w.all (combined (resultSet fromJSON resp
              (w.calls.length + (streamGroups A).length) (streamGroups B))),
           StoreState.mk w.all (combined (resultSet fromJSON resp w.calls.length
              (streamGroups A)))]) ∧
    (w.calls.length + (streamGroups A).length ≤ j →
      (settle fromJSON (run fromJSON (onQueryFiltersUpdate (onQueryFiltersUpdate w A) B)
          (ds.map (fun d => Event.settle d (Outcome.success (resp d)))))
        j (Outcome.success (resp j))).queryFields =
        combined (resultSet fromJSON resp (w.calls.length + (streamGroups A).length)
          (streamGroups B)) ∧
      (settle fromJSON (run fromJSON (onQueryFiltersUpdate (onQueryFiltersUpdate w A) B)
          (ds.map (fun d => Event.settle d (Outcome.success (resp d)))))
        j (Outcome.success (resp j))).notified =
        w.notified ++
          [StoreState.mk w.all (combined (resultSet fromJSON resp w.calls.length
              (streamGroups A))),
           StoreState.mk w.all (combined (resultSet fromJSON resp
              (w.calls.length + (streamGroups A).length) (streamGroups B)))]) := by
  obtain ⟨hlenc, hlenr⟩ := onQueryFiltersUpdate_length w A
  have hcallsV := onQueryFiltersUpdate_calls (onQueryFiltersUpdate w A) B
  have hlA : Later (onQueryFiltersUpdate w A)
      (onQueryFiltersUpdate (onQueryFiltersUpdate w A) B) :=
    Later.of_append _ _ _ _ hcallsV (onQueryFiltersUpdate_rounds _ B)
  have hrA := round_registered w A _ hlA
  have hrB := round_registered (onQueryFiltersUpdate w A) B _ (Later.refl _)
  have htA := round_tags w A _ hlA
  have htB := round_tags (onQueryFiltersUpdate w A) B _ (Later.refl _)
  have hpB := onQueryFiltersUpdate_pending (onQueryFiltersUpdate w A) B
  have hpA : ∀ m ∈ List.range' w.calls.length (streamGroups A).length,
      ∃ (c : Call M) (q : String),
        (onQueryFiltersUpdate (onQueryFiltersUpdate w A) B).calls[m]? = some c ∧
        c.result = PState.pending ∧ c.next = Reaction.tag w.rounds.length q := by
    intro m hm
    obtain ⟨c, q, hc, hp, hn⟩ := onQueryFiltersUpdate_pending w A m hm
    refine ⟨c, q, ?_, hp, hn⟩
    rw [hcallsV, List.getElem?_append_left (List.getElem?_eq_some.mp hc).1]
    exact hc
  have hallV : (onQueryFiltersUpdate (onQueryFiltersUpdate w A) B).all = w.all := by
    rw [onQueryFiltersUpdate_all, onQueryFiltersUpdate_all]
  have hnotB := onQueryFiltersUpdate_notified fromJSON resp (onQueryFiltersUpdate w A) B
  have hnotA := onQueryFiltersUpdate_notified fromJSON resp w A
  rw [hlenc, hlenr] at hrB
  rw [hlenc] at htB
  rw [hlenc, hlenr] at hpB
  rw [hlenc, onQueryFiltersUpdate_all] at hnotB
  have hresA := resultSet_eq_map fromJSON resp _ (streamGroups A) w.calls.length htA
  have hresB := resultSet_eq_map fromJSON resp _ (streamGroups B)
    (w.calls.length + (streamGroups A).length) htB
  refine ⟨?_, ?_, ?_⟩
  · rw [hcallsV, onQueryFiltersUpdate_calls, hlenr]
  · intro hjA
    have hjA' : j ∈ List.range' w.calls.length (streamGroups A).length := by
      rw [List.mem_range'_1] at hj ⊢
      omega
    have hjB' : j ∉ List.range' (w.calls.length + (streamGroups A).length)
        (streamGroups B).length := by
      rw [List.mem_range'_1]
      omega
    have hneA : streamGroups A ≠ [] := by
      intro e
      rw [e] at hjA'
      simp at hjA'
    have h := last_settled_wins fromJSON resp _ _ _ _ _ j hrB hrA hpB hpA hjA' hjB'
      ds (fun d hd => ⟨(mem_range'_split _ _ _ _).mp (hds d hd).1, (hds d hd).2⟩)
      (fun m hm hne => hcover m ((mem_range'_split _ _ _ _).mpr hm) hne)
    rw [hresA, hresB, hallV] at h
    refine ⟨h.1, ?_⟩
    rw [h.2, hnotB, (onQueryFiltersUpdate_of_ne_nil w A hneA).2.2]
    simp
  · intro hjB
    have hjB' : j ∈ List.range' (w.calls.length + (streamGroups A).length)
        (streamGroups B).length := by
      rw [List.mem_range'_1] at hj ⊢
      omega
    have hjA' : j ∉ List.range' w.calls.length (streamGroups A).length := by
      rw [List.mem_range'_1]
      omega
    have hneB : streamGroups B ≠ [] := by
      intro e
      rw [e] at hjB'
      simp at hjB'
    have h := last_settled_wins fromJSON resp _ _ _ _ _ j hrA hrB hpA hpB hjB' hjA'
      ds (fun d hd => ⟨((mem_range'_split _ _ _ _).mp (hds d hd).1).symm, (hds d hd).2⟩)
      (fun m hm hne => hcover m ((mem_range'_split _ _ _ _).mpr hm.symm) hne)
    rw [hresA, hresB, hallV] at h
    refine ⟨h.1, ?_⟩
    rw [h.2, (onQueryFiltersUpdate_of_ne_nil _ B hneB).2.2, hnotA]
    simp

theorem onQueryFiltersUpdate_of_ne_nil_eq (w : World M) (nf : Snapshot)
    (h : streamGroups nf ≠ []) :
    onQueryFiltersUpdate w nf =
      { w with calls := w.calls ++ (streamGroups nf).map (scopedCall w.rounds.length),
               rounds := w.rounds ++ [List.range' w.calls.length (streamGroups nf).length] } := by
  have h1 := issueScoped_eq w w.rounds.length (streamGroups nf)
  unfold onQueryFiltersUpdate
  simp only [h1.1, h1.2]
  have : (List.range' w.calls.length (streamGroups nf).length).isEmpty = false := by
    cases hs : streamGroups nf with
    | nil => exact absurd hs h
    | cons a l => simp [List.range'_succ]
  simp [this]

theorem onQueryFiltersUpdate_fulfil (w : World M) (d : Nat) (c : Call M) (v : List M)
    (nf : Snapshot) (hd : w.calls[d]? = some c) :
    onQueryFiltersUpdate (fulfil w d c v) nf = fulfil (onQueryFiltersUpdate w nf) d c v := by
  have hlt := (List.getElem?_eq_some.mp hd).1
  by_cases h : streamGroups nf = []
  · rw [onQueryFiltersUpdate_of_nil _ nf h, onQueryFiltersUpdate_of_nil _ nf h]
    rfl
  · rw [onQueryFiltersUpdate_of_ne_nil_eq _ nf h, onQueryFiltersUpdate_of_ne_nil_eq _ nf h]
    simp [fulfil, List.set_append_left _ _ hlt]

theorem settle_quiet_comm (fromJSON : R → M) (w : World M) (d : Nat) (c : Call M)
    (records : List R) (k : Nat) (q : String) (ms : List Nat) (nf : Snapshot)
    (h : w.calls[d]? = some c) (hp : c.result = PState.pending)
    (hn : c.next = Reaction.tag k q) (hr : w.rounds[k]? = some ms)
    (m : Nat) (cm : Call M) (hm : m ∈ ms) (hmd : m ≠ d) (hcm : w.calls[m]? = some cm)
    (hpm : cm.result = PState.pending) :
    onQueryFiltersUpdate (settle fromJSON w d (Outcome.success records)) nf =
      settle fromJSON (onQueryFiltersUpdate w nf) d (Outcome.success records) := by
  have hnf : allFulfilled (fulfil w d c (records.map fromJSON)) ms = false :=
    allFulfilled_false_of_pending _ ms m cm hm
      (by rw [fulfil_getElem?_ne w d m c _ hmd]; exact hcm) hpm
  rw [settle_tag_not_full fromJSON w d c records k q ms h hp hn hr hnf]
  have hl : Later w (onQueryFiltersUpdate w nf) :=
    Later.of_append _ _ _ _ (onQueryFiltersUpdate_calls w nf) (onQueryFiltersUpdate_rounds w nf)
  have h' : (onQueryFiltersUpdate w nf).calls[d]? = some c := by
    rw [onQueryFiltersUpdate_calls, List.getElem?_append_left (List.getElem?_eq_some.mp h).1]
    exact h
  have hcm' : (onQueryFiltersUpdate w nf).calls[m]? = some cm := by
    rw [onQueryFiltersUpdate_calls, List.getElem?_append_left (List.getElem?_eq_some.mp hcm).1]
    exact hcm
  have hr' : (onQueryFiltersUpdate w nf).rounds[k]? = some ms := by
    rw [onQueryFiltersUpdate_rounds, List.getElem?_append_left (List.getElem?_eq_some.mp hr).1]
    exact hr
  have hnf' : allFulfilled (fulfil (onQueryFiltersUpdate w nf) d c (records.map fromJSON)) ms =
      false :=
    allFulfilled_false_of_pending _ ms m cm hm
      (by rw [fulfil_getElem?_ne _ d m c _ hmd]; exact hcm') hpm
  rw [settle_tag_not_full fromJSON _ d c records k q ms h' hp hn hr' hnf']
  exact onQueryFiltersUpdate_fulfil w d c _ nf h

theorem run_before_later_snapshot (fromJSON : R → M) (resp : Nat → List R) (w : World M)
    (A B : Snapshot) (ds₀ : List Nat) (a : Nat)
    (hds₀ : ∀ d ∈ ds₀, d ∈ List.range' w.calls.length (streamGroups A).length)
    (ha : a ∈ List.range' w.calls.length (streamGroups A).length) (hna : a ∉ ds₀) :
    onQueryFiltersUpdate
      (run fromJSON (onQueryFiltersUpdate w A)
        (ds₀.map (fun d => Event.settle d (Outcome.success (resp d))))) B =
    run fromJSON (onQueryFiltersUpdate (onQueryFiltersUpdate w A) B)
      (ds₀.map (fun d => Event.settle d (Outcome.success (resp d)))) := by
  induction ds₀ using List.reverseRecOn with
  | nil => rfl
  | append_singleton ds d ih =>
    have hds' : ∀ d' ∈ ds, d' ∈ List.range' w.calls.length (streamGroups A).length :=
      fun d' hd' => hds₀ d' (by simp [hd'])
    have hna' : a ∉ ds := fun h => hna (by simp [h])
    have had : a ≠ d := fun e => hna (by simp [e])
    have ih' := ih hds' hna'
    obtain ⟨hr, _, hcalls⟩ := run_settles_calls fromJSON resp (onQueryFiltersUpdate w A) ds
      (fun d' hd' => by
        obtain ⟨c, q, h1, h2, h3⟩ := onQueryFiltersUpdate_pending w A d' (hds' d' hd')
        exact ⟨c, _, q, h1, h2, h3⟩)
    rw [run_append_settle, run_append_settle, ← ih']
    generalize run fromJSON (onQueryFiltersUpdate w A)
      (ds.map (fun d => Event.settle d (Outcome.success (resp d)))) = W at hr hcalls ⊢
    obtain ⟨c, q, hc, hp, hn⟩ := onQueryFiltersUpdate_pending w A d (hds₀ d (by simp))
    have hWd := hcalls d
    rw [hc] at hWd
    by_cases hmem : d ∈ ds
    · simp only [Option.map_some', hmem, ↓reduceIte] at hWd
      rw [settle_of_settled fromJSON W d _ _ hWd (by simp)]
      have hWd' : (onQueryFiltersUpdate W B).calls[d]? =
          some { c with result := PState.fulfilled ((resp d).map fromJSON) } := by
        rw [onQueryFiltersUpdate_calls,
          List.getElem?_append_left (List.getElem?_eq_some.mp hWd).1]
        exact hWd
      rw [settle_of_settled fromJSON _ d _ _ hWd' (by simp)]
    · simp only [Option.map_some', hmem, ↓reduceIte] at hWd
      obtain ⟨ca, qa, hca, hpa, _⟩ := onQueryFiltersUpdate_pending w A a ha
      have hWa : W.calls[a]? = some ca := by
        rw [hcalls a, hca]
        simp only [Option.map_some', hna', ↓reduceIte]
      have hrW : W.rounds[w.rounds.length]? =
          some (List.range' w.calls.length (streamGroups A).length) := by
        rw [hr]
        exact round_registered w A _ (Later.refl _)
      exact settle_quiet_comm fromJSON W d c (resp d) _ q _ B hWd hp hn hrW a ca ha had hWa hpa

theorem resultSet_keys (fromJSON : R → M) (resp : Nat → List R)
    (ts : List (String × List (Option String))) (start : Nat) :
    (resultSet fromJSON resp start ts).map Prod.fst = ts.map Prod.fst := by
  induction ts generalizing start with
  | nil => rfl
  | cons t rest ih => simp [resultSet, ih]

theorem combined_resultSet (fromJSON : R → M) (resp : Nat → List R) (S : Snapshot)
    (start : Nat) (hn : (S.map Prod.fst).Nodup) (hp : ∀ kv ∈ S, kv.1 ≠ "__proto__") :
    (combined (resultSet fromJSON resp start (streamGroups S)) : Value M) =
      Value.map (resultSet fromJSON resp start (streamGroups S)) := by
  apply combined_eq_map
  · rw [resultSet_keys]
    exact streamGroups_nodup S hn
  · intro kv hkv hbad
    have h1 : kv.1 ∈ (streamGroups S).map Prod.fst := by
      rw [← resultSet_keys fromJSON resp (streamGroups S) start]
      exact List.mem_map.mpr ⟨kv, hkv, rfl⟩
    obtain ⟨kv', hkv', he⟩ := List.mem_map.mp (streamGroups_key_mem S kv.1 h1)
    exact hp kv' hkv' (he.trans hbad)

/-- C9: snapshot `A` is handled; some of its requests succeed (`ds₀`) but at
least one (`a`) is still pending when snapshot `B` is handled; then the
remaining requests of both rounds succeed in any order (`ds`, and `j` last).
Neither round is dropped: each emits its notification, in the order in which
the rounds complete. The final `queryFields` is the result set of the round
that `j` belongs to, that is the value lines 53-57 build from that round's
ids and responses: when the last request to settle is one of `A`, the final
`queryFields` is the result set of `A`, although `B` is the more recent
snapshot. For a snapshot with distinct ids, none of them `__proto__`, that
result set is the map from each id to the deserialised response of its
request. -/
theorem overlapping_rounds_last_settled_wins (fromJSON : R → M) (w : World M)
    (A B : Snapshot) (resp : Nat → List R) (ds₀ ds : List Nat) (a j : Nat)
    (hds₀ : ∀ d ∈ ds₀, d ∈ List.range' w.calls.length (streamGroups A).length ∧ d ≠ j)
    (ha : a ∈ List.range' w.calls.length (streamGroups A).length ∧ a ∉ ds₀)
    (hds : ∀ d ∈ ds, d ∈ List.range' w.calls.length
      ((streamGroups A).length + (streamGroups B).length) ∧ d ≠ j)
    (hj : j ∈ List.range' w.calls.length ((streamGroups A).length + (streamGroups B).length))
    (hcover : ∀ m ∈ List.range' w.calls.length
      ((streamGroups A).length + (streamGroups B).length), m ≠ j → m ∈ ds₀ ∨ m ∈ ds) :
    (j < w.calls.length + (streamGroups A).length →
      (settle fromJSON (run fromJSON
          (onQueryFiltersUpdate
            (run fromJSON (onQueryFiltersUpdate w A)
              (ds₀.map (fun d => Event.settle d (Outcome.success (resp d))))) B)
          (ds.map (fun d => Event.settle d (Outcome.success (resp d)))))
        j (Outcome.success (resp j))).queryFields =
        combined (resultSet fromJSON resp w.calls.length (streamGroups A)) ∧
      (settle fromJSON (run fromJSON
          (onQueryFiltersUpdate
            (run fromJSON (onQueryFiltersUpdate w A)
              (ds₀.map (fun d => Event.settle d (Outcome.success (resp d))))) B)
          (ds.map (fun d => Event.settle d (Outcome.success (resp d)))))
        j (Outcome.success (resp j))).notified =
        w.notified ++
          [StoreState.mk w.all (combined (resultSet fromJSON resp
              (w.calls.length + (streamGroups A).length) (streamGroups B))),
           StoreState.mk w.all (combined (resultSet fromJSON resp w.calls.length
              (streamGroups A)))]) ∧
    (w.calls.length + (streamGroups A).length ≤ j →
      (settle fromJSON (run fromJSON
          (onQueryFiltersUpdate
            (run fromJSON (onQueryFiltersUpdate w A)
              (ds₀.map (fun d => Event.settle d (Outcome.success (resp d))))) B)
          (ds.map (fun d => Event.settle d (Outcome.success (resp d)))))
        j (Outcome.success (resp j))).queryFields =
        combined (resultSet fromJSON resp (w.calls.length + (streamGroups A).length)
          (streamGroups B)) ∧
      (settle fromJSON (run fromJSON
          (onQueryFiltersUpdate
            (run fromJSON (onQueryFiltersUpdate w A)
              (ds₀.map (fun d => Event.settle d (Outcome.success (resp d))))) B)
          (ds.map (fun d => Event.settle d (Outcome.success (resp d)))))
        j (Outcome.success (resp j))).notified =
        w.notified ++
          [StoreState.mk w.all (combined (resultSet fromJSON resp w.calls.length
              (streamGroups A))),
           StoreState.mk w.all (combined (resultSet fromJSON resp
              (w.calls.length + (streamGroups A).length) (streamGroups B)))]) ∧
    ((A.map Prod.fst).Nodup → (∀ kv ∈ A, kv.1 ≠ "__proto__") →
      (combined (resultSet fromJSON resp w.calls.length (streamGroups A)) : Value M) =
        Value.map (resultSet fromJSON resp w.calls.length (streamGroups A))) ∧
    ((B.map Prod.fst).Nodup → (∀ kv ∈ B, kv.1 ≠ "__proto__") →
      (combined (resultSet fromJSON resp (w.calls.length + (streamGroups A).length)
        (streamGroups B)) : Value M) =
        Value.map (resultSet fromJSON resp (w.calls.length + (streamGroups A).length)
          (streamGroups B))) := by
  have hcomm := run_before_later_snapshot fromJSON resp w A B ds₀ a
    (fun d hd => (hds₀ d hd).1) ha.1 ha.2
  have hrun : run fromJSON
      (onQueryFiltersUpdate
        (run fromJSON (onQueryFiltersUpdate w A)
          (ds₀.map (fun d => Event.settle d (Outcome.success (resp d))))) B)
      (ds.map (fun d => Event.settle d (Outcome.success (resp d)))) =
      run fromJSON (onQueryFiltersUpdate (onQueryFiltersUpdate w A) B)
        ((ds₀ ++ ds).map (fun d => Event.settle d (Outcome.success (resp d)))) := by
    rw [hcomm, List.map_append]
    simp [run, List.foldl_append]
  rw [hrun]
  have hsub : ∀ m, m ∈ List.range' w.calls.length (streamGroups A).length →
      m ∈ List.range' w.calls.length ((streamGroups A).length + (streamGroups B).length) := by
    intro m hm
    rw [List.mem_range'_1] at hm ⊢
    omega
  have hcore := (overlapping_rounds_core fromJSON w A B resp (ds₀ ++ ds) j
    (fun d hd => by
      rcases List.mem_append.mp hd with h | h
      · exact ⟨hsub d (hds₀ d h).1, (hds₀ d h).2⟩
      · exact hds d h)
    hj
    (fun m hm hne => List.mem_append.mpr (hcover m hm hne))).2
  exact ⟨hcore.1, hcore.2, combined_resultSet fromJSON resp A _,
    combined_resultSet fromJSON resp B _⟩

theorem overlapping_rounds_last_settled_wins_witness :
    (settle (fun n : Nat => n + 10)
      (run (fun n : Nat => n + 10)
        (onQueryFiltersUpdate
          (run (fun n : Nat => n + 10) (onQueryFiltersUpdate demoWorld demoSnapshot)
            [Event.settle 0 (Outcome.success [0])]) demoLater)
        [Event.settle 2 (Outcome.success [2])])
      1 (Outcome.success [1])).queryFields = Value.map [("q1", [10]), ("q2", [11])] ∧
    (settle (fun n : Nat => n + 10)
      (run (fun n : Nat => n + 10)
        (onQueryFiltersUpdate
          (run (fun n : Nat => n + 10) (onQueryFiltersUpdate demoWorld demoSnapshot)
            [Event.settle 0 (Outcome.success [0])]) demoLater)
        [Event.settle 2 (Outcome.success [2])])
      1 (Outcome.success [1])).notified =
      [{ all := Value.list [1], queryFields := Value.map [("q9", [12])] },
       { all := Value.list [1], queryFields := Value.map [("q1", [10]), ("q2", [11])] }] :=
  have h := overlapping_rounds_last_settled_wins (fun n : Nat => n + 10) demoWorld
    demoSnapshot demoLater (fun i => [i]) [0] [2] 1 1
    (by decide) (by decide) (by decide) (by decide) (by decide)
  ⟨(h.1 (by decide)).1.trans (by decide), (h.1 (by decide)).2.trans (by decide)⟩

end FieldTypesStore

/-! ## Hot-reload entries of the combined webpack configuration -/

namespace WebpackCombined

open FieldTypesStore (Obj getProp setProp defineOwn)

theorem getProp_defineOwn {V : Type} (obj : List (String × V)) (key k : String) (value : V) :
    getProp (defineOwn obj key value) k = if k = key then some value else getProp obj k := by
  induction obj with
  | nil =>
    by_cases e : k = key
    · simp [defineOwn, getProp, e]
    · have e' : ¬ key = k := fun h => e h.symm
      simp [defineOwn, getProp, e, e']
  | cons kv rest ih =>
    obtain ⟨k₀, v₀⟩ := kv
    by_cases h₀ : k₀ = key
    · subst h₀
      by_cases e : k = k₀
      · subst e
        simp [defineOwn, getProp]
      · have e' : ¬ k₀ = k := fun h => e h.symm
        simp [defineOwn, getProp, e, e']
    · by_cases e : k₀ = k
      · subst e
        have h₀' : ¬ k₀ = key := h₀
        simp [defineOwn, getProp, h₀']
      · simp [defineOwn, getProp, h₀, e, ih]

theorem getProp_eq_none_iff {V : Type} (obj : List (String × V)) (k : String) :
    getProp obj k = none ↔ k ∉ obj.map Prod.fst := by
  induction obj with
  | nil => simp [getProp]
  | cons kv rest ih =>
    obtain ⟨k₀, v₀⟩ := kv
    by_cases e : k₀ = k
    · subst e
      simp [getProp]
    · have e' : ¬ k = k₀ := fun h => e h.symm
      simp [getProp, e, e', ih]

theorem getProp_setProp {V : Type} (obj : Obj V) (key k : String) (value : V) :
    getProp (setProp obj key value).props k =
      if key = "__proto__" then getProp obj.props k
      else if k = key then some value else getProp obj.props k := by
  by_cases h : key = "__proto__"
  · simp [setProp, h]
  · simp [setProp, h, getProp_defineOwn]

theorem foldl_hmr (entry : List (String × EntryValue)) (ks : List String)
    (acc : Obj EntryValue) (k : String) :
    getProp (ks.foldl (fun acc entryKey =>
      setProp acc entryKey (EntryValue.array (hmrValue
        ((getProp entry entryKey).getD (EntryValue.single Item.undefined))))) acc).props k =
      if k ≠ "__proto__" ∧ k ∈ ks then
        some (EntryValue.array (hmrValue
          ((getProp entry k).getD (EntryValue.single Item.undefined))))
      else getProp acc.props k := by
  induction ks generalizing acc with
  | nil => simp
  | cons k₀ rest ih =>
    rw [List.foldl_cons, ih, getProp_setProp]
    by_cases hp : k = "__proto__"
    · subst hp
      by_cases h₀ : k₀ = "__proto__"
      · simp [h₀]
      · have : ¬ "__proto__" = k₀ := fun e => h₀ e.symm
        simp [h₀, this]
    · by_cases hr : k ∈ rest
      · simp [hp, hr]
      · by_cases e : k = k₀
        · subst e
          simp [hp, hr]
        · by_cases h₀ : k₀ = "__proto__"
          · simp [hp, hr, e, h₀]
          · simp [hp, hr, e, h₀]

theorem hmrEntries_getProp (entry : Obj EntryValue) (k : String) :
    getProp (hmrEntries entry).props k =
      if k = "__proto__" then none
      else (getProp entry.props k).map (fun v => EntryValue.array (hmrValue v)) := by
  unfold hmrEntries
  rw [foldl_hmr]
  by_cases hp : k = "__proto__"
  · simp [hp, getProp]
  · by_cases hk : k ∈ entry.props.map Prod.fst
    · rw [if_pos ⟨hp, hk⟩, if_neg hp]
      cases hg : getProp entry.props k with
      | none => exact absurd hk ((getProp_eq_none_iff entry.props k).mp hg)
      | some v => rfl
    · rw [if_neg (fun h => hk h.2), if_neg hp, (getProp_eq_none_iff entry.props k).mpr hk]
      rfl

/-- Hot-reload injection for ordinary entry keys: when the target is 'start',
reading any key other than `__proto__` of the exported `entry` gives, for an
own key of the merged `entry`, the array that starts with
'webpack-hot-middleware/client?reload=true' and continues with the original
value (if it was not an array) or with the original elements in order (if it
was), and nothing for any other key; the exported `entry` has no own key
`__proto__`, its own keys are the own keys of the merged `entry` other than
`__proto__`, and the rest of the configuration is untouched. For any other
target the configuration is exported as merged. -/
theorem hot_middleware_injected {Other : Type} (TARGET : Option String)
    (finalConfig : Config Other) :
    (TARGET = some "start" →
      (∀ k, k ≠ "__proto__" → getProp (moduleExports TARGET finalConfig).entry.props k =
        (getProp finalConfig.entry.props k).map (fun v =>
          EntryValue.array (Item.str "webpack-hot-middleware/client?reload=true" ::
            (match v with
              | EntryValue.single x => [x]
              | EntryValue.array xs => xs)))) ∧
      (∀ k, k ∈ (moduleExports TARGET finalConfig).entry.props.map Prod.fst ↔
        (k ∈ finalConfig.entry.props.map Prod.fst ∧ k ≠ "__proto__")) ∧
      (moduleExports TARGET finalConfig).rest = finalConfig.rest) ∧
    (TARGET ≠ some "start" → moduleExports TARGET finalConfig = finalConfig) := by
  have hget : ∀ k, k ≠ "__proto__" → getProp (hmrEntries finalConfig.entry).props k =
      (getProp finalConfig.entry.props k).map (fun v =>
        EntryValue.array (Item.str "webpack-hot-middleware/client?reload=true" ::
          (match v with
            | EntryValue.single x => [x]
            | EntryValue.array xs => xs))) := by
    intro k hk
    rw [hmrEntries_getProp, if_neg hk]
    cases getProp finalConfig.entry.props k with
    | none => rfl
    | some v => cases v <;> rfl
  constructor
  · intro ht
    subst ht
    refine ⟨hget, ?_, rfl⟩
    show ∀ k, k ∈ (hmrEntries finalConfig.entry).props.map Prod.fst ↔
      (k ∈ finalConfig.entry.props.map Prod.fst ∧ k ≠ "__proto__")
    intro k
    have h1 := getProp_eq_none_iff (hmrEntries finalConfig.entry).props k
    have h2 := getProp_eq_none_iff finalConfig.entry.props k
    by_cases hp : k = "__proto__"
    · rw [hmrEntries_getProp, if_pos hp] at h1
      constructor
      · intro hk
        exact absurd hk (h1.mp rfl)
      · intro hk
        exact absurd hp hk.2
    · rw [hget k hp] at h1
      constructor
      · intro hk
        refine ⟨?_, hp⟩
        by_contra hn
        have := h2.mpr hn
        rw [this] at h1
        exact (h1.mp rfl) hk
      · intro hk
        by_contra hn
        have := h1.mpr hn
        cases hg : getProp finalConfig.entry.props k with
        | none => exact (h2.mp hg) hk.1
        | some v => rw [hg] at this; cases this
  · intro ht
    simp [moduleExports, ht]

/-- C10: the claim fails on the code at an own entry key `__proto__`. With the
target 'start' and a merged `entry` whose own keys are `__proto__` and `app`,
the assignment of line 60 for `__proto__` replaces the prototype of the new
object instead of defining a property: the exported `entry` has the single own
key `app`, so the set of entry keys is not kept and no own entry of the
exported configuration carries the hot-reload client for the entry
`__proto__`, against the comment of line 45. -/
theorem proto_entry_key_is_dropped :
    moduleExports (some "start")
      ({ entry := { props := [("__proto__", EntryValue.single (Item.str "evil.js")),
                              ("app", EntryValue.single (Item.str "src/index.jsx"))],
                    proto := none },
         rest := () } : Config Unit) =
      { entry := { props := [("app", EntryValue.array
                      [Item.str "webpack-hot-middleware/client?reload=true",
                       Item.str "src/index.jsx"])],
                   proto := some (EntryValue.array
                      [Item.str "webpack-hot-middleware/client?reload=true",
                       Item.str "evil.js"]) },
        rest := () } ∧
    (moduleExports (some "start")
      ({ entry := { props := [("__proto__", EntryValue.single (Item.str "evil.js")),
                              ("app", EntryValue.single (Item.str "src/index.jsx"))],
                    proto := none },
         rest := () } : Config Unit)).entry.props.map Prod.fst = ["app"] ∧
    getProp (moduleExports (some "start")
      ({ entry := { props := [("__proto__", EntryValue.single (Item.str "evil.js")),
                              ("app", EntryValue.single (Item.str "src/index.jsx"))],
                    proto := none },
         rest := () } : Config Unit)).entry.props "__proto__" = none := by
  decide

end WebpackCombined

/-! ## The two flows write different fields -/

namespace FieldTypesStore

variable {R M : Type}

theorem settle_tag_notified (fromJSON : R → M) (w : World M) (i : Nat) (o : Outcome R)
    (c : Call M) (k : Nat) (q : String) (h : w.calls[i]? = some c)
    (hn : c.next = Reaction.tag k q) :
    ((settle fromJSON w i o).notified = w.notified ∧
      (settle fromJSON w i o).queryFields = w.queryFields) ∨
    (settle fromJSON w i o).notified =
      w.notified ++ [StoreState.mk w.all (settle fromJSON w i o).queryFields] := by
  unfold settle
  obtain ⟨rq, rs, nx⟩ := c
  simp only at hn
  subst hn
  cases rs <;> cases o <;> simp [h, onRoundSettled, _trigger, _state]
  split
  · exact Or.inl ⟨rfl, rfl⟩
  · split
    · exact Or.inr rfl
    · exact Or.inl ⟨rfl, rfl⟩

theorem onQueryFiltersUpdate_notified_shape (w : World M) (nf : Snapshot) :
    ((onQueryFiltersUpdate w nf).notified = w.notified ∧
      (onQueryFiltersUpdate w nf).queryFields = w.queryFields) ∨
    (onQueryFiltersUpdate w nf).notified =
      w.notified ++ [StoreState.mk w.all (onQueryFiltersUpdate w nf).queryFields] := by
  by_cases h : streamGroups nf = []
  · rw [onQueryFiltersUpdate_of_nil w nf h]
    exact Or.inr rfl
  · obtain ⟨_, h2, h3⟩ := onQueryFiltersUpdate_of_ne_nil w nf h
    exact Or.inl ⟨h3, h2⟩

/-- C11: the two flows write different fields. Issuing `all()` and the success
of its request leave `queryFields` as it is, and the state then passed to
subscribers carries that unchanged `queryFields`. Handling a snapshot and
settling any request of its round leave `all` as it is, and whenever such a
step notifies, the state passed to subscribers carries that unchanged `all`
next to the new `queryFields`. -/
theorem flows_write_disjoint_fields (fromJSON : R → M) (w : World M)
    (es : List (Event R)) (records : List R)
    (hp : ((run fromJSON (all w).1 es).calls[(all w).2]?).map Call.result =
      some PState.pending)
    (nf : Snapshot) (es' : List (Event R)) (j : Nat) (o : Outcome R)
    (hj : j ∈ List.range' w.calls.length (streamGroups nf).length) :
    ((all w).1.queryFields = w.queryFields ∧
      (settle fromJSON (run fromJSON (all w).1 es) (all w).2
        (Outcome.success records)).queryFields = (run fromJSON (all w).1 es).queryFields ∧
      (settle fromJSON (run fromJSON (all w).1 es) (all w).2
        (Outcome.success records)).notified =
        (run fromJSON (all w).1 es).notified ++
          [StoreState.mk (Value.list (records.map fromJSON))
            (run fromJSON (all w).1 es).queryFields]) ∧
    ((onQueryFiltersUpdate w nf).all = w.all ∧
      (((onQueryFiltersUpdate w nf).notified = w.notified ∧
          (onQueryFiltersUpdate w nf).queryFields = w.queryFields) ∨
        (onQueryFiltersUpdate w nf).notified =
          w.notified ++ [StoreState.mk w.all (onQueryFiltersUpdate w nf).queryFields]) ∧
      (settle fromJSON (run fromJSON (onQueryFiltersUpdate w nf) es') j o).all =
        (run fromJSON (onQueryFiltersUpdate w nf) es').all ∧
      (((settle fromJSON (run fromJSON (onQueryFiltersUpdate w nf) es') j o).notified =
            (run fromJSON (onQueryFiltersUpdate w nf) es').notified ∧
          (settle fromJSON (run fromJSON (onQueryFiltersUpdate w nf) es') j o).queryFields =
            (run fromJSON (onQueryFiltersUpdate w nf) es').queryFields) ∨
        (settle fromJSON (run fromJSON (onQueryFiltersUpdate w nf) es') j o).notified =
          (run fromJSON (onQueryFiltersUpdate w nf) es').notified ++
            [StoreState.mk (run fromJSON (onQueryFiltersUpdate w nf) es').all
              (settle fromJSON (run fromJSON (onQueryFiltersUpdate w nf) es') j
                o).queryFields])) := by
  constructor
  · obtain ⟨c, hc, _, hn, _⟩ := (run_later fromJSON (all w).1 es).2 _ _ (all_call w)
    rw [hc] at hp
    have hpend : c.result = PState.pending := by simpa using hp
    rw [settle_storeAll fromJSON _ _ c records hc hpend hn]
    exact ⟨rfl, rfl, rfl⟩
  · have hl := run_later fromJSON (onQueryFiltersUpdate w nf) es'
    obtain ⟨pj, tj, hjp, htj⟩ := round_member_of_mem w nf j hj
    obtain ⟨c, hc, hn, _⟩ := round_member w nf _ hl pj tj htj
    rw [← hjp] at hc
    exact ⟨onQueryFiltersUpdate_all w nf, onQueryFiltersUpdate_notified_shape w nf,
      settle_all_of_tag fromJSON _ j o c _ _ hc hn,
      settle_tag_notified fromJSON _ j o c _ _ hc hn⟩

theorem flows_write_disjoint_fields_witness :
    (settle (fun n : Nat => n + 10) (run (fun n : Nat => n + 10) (all demoWorld).1 [])
      (all demoWorld).2 (Outcome.success [4])).notified =
      [{ all := Value.list [14], queryFields := Value.map [("old", [2])] }] ∧
    (settle (fun n : Nat => n + 10)
      (run (fun n : Nat => n + 10) (onQueryFiltersUpdate demoWorld demoSnapshot)
        [Event.settle 1 (Outcome.success [5])]) 0 (Outcome.success [7])).all =
      Value.list [1] :=
  have h := flows_write_disjoint_fields (fun n : Nat => n + 10) demoWorld [] [4] (by decide)
    demoSnapshot [Event.settle 1 (Outcome.success [5])] 0 (Outcome.success [7]) (by decide)
  ⟨h.1.2.2.trans (by decide), h.2.2.2.1.trans (by decide)⟩

end FieldTypesStore

